import Mathlib

/-!
Verification of the matchmaking-and-match-lifecycle core of the Pong Versus
server (`src/server/index.js`, with persistence in `src/server/persistence.js`).

The JavaScript server is shallowly embedded: JS numbers that only ever hold
exact values (ratings, ping, timestamps, seat counts) are modelled as `ℚ`, `ℤ`
or `ℕ`; JS `Map`s are modelled as association lists with the same
get/set/delete semantics; the synchronous side effects of a handler (socket
emissions, persistence writes) are modelled as event logs threaded through an
explicit state record.  Timestamps (`Date.now()`) become an explicit `now : ℤ`
parameter: a synchronous handler reads a single frozen time.
-/

namespace PongServer

/-- Server constant `READY_CHECK_MS` (index.js:16). -/
def READY_CHECK_MS : ℤ := 10000

/-- Server constant `RECONNECT_GRACE_MS` (index.js:17). -/
def RECONNECT_GRACE_MS : ℤ := 45000

/-- Server constant `QUEUE_BASE_MMR_RANGE` (index.js:19). -/
def QUEUE_BASE_MMR_RANGE : ℚ := 120

/-- Server constant `QUEUE_EXPAND_STEP` (index.js:20). -/
def QUEUE_EXPAND_STEP : ℚ := 40

/-- Server constant `QUEUE_EXPAND_EVERY_MS` (index.js:21). -/
def QUEUE_EXPAND_EVERY_MS : ℤ := 10000

/-- Server constant `QUEUE_MAX_MMR_RANGE` (index.js:22). -/
def QUEUE_MAX_MMR_RANGE : ℚ := 720

/-- Server constant `QUEUE_REQUEUE_PRIORITY_MS` (index.js:23). -/
def QUEUE_REQUEUE_PRIORITY_MS : ℤ := 12000

/-- Server constant `SCORE_LIMIT` with the default `MATCH_SCORE_LIMIT` of 7 (index.js:24). -/
def SCORE_LIMIT : ℕ := 7

/-- Server constant `MATCH_MAX_DURATION_MS` (index.js:25). -/
def MATCH_MAX_DURATION_MS : ℤ := 8 * 60 * 1000

/-- Server constant `DEFAULT_MAX_PING_MS` (index.js:26). -/
def DEFAULT_MAX_PING_MS : ℚ := 220

/-- Server constant `ELO_K` (index.js:27). -/
def ELO_K : ℚ := 26

/-- Server constant `ABANDON_PENALTY` (index.js:28). -/
def ABANDON_PENALTY : ℚ := 24

/-- Default player rating, `DEFAULT_RATING` in persistence.js:4, exposed to the
matchmaker as `matchmakingDefaults.defaultRating` (persistence.js:466-468). -/
def defaultRating : ℚ := 1000

/-- Lookup in an association list, modelling `Map.get` (JS maps have unique
keys; all maps in the server are only ever updated through set/delete). -/
def assocGet {κ α : Type} [DecidableEq κ] : List (κ × α) → κ → Option α
  | [], _ => none
  | p :: tl, k => if p.1 = k then some p.2 else assocGet tl k

/-- Update in an association list, modelling `Map.set` (replaces the existing
entry for the key, else appends in insertion order). -/
def assocSet {κ α : Type} [DecidableEq κ] : List (κ × α) → κ → α → List (κ × α)
  | [], k, v => [(k, v)]
  | p :: tl, k, v => if p.1 = k then (k, v) :: tl else p :: assocSet tl k v

/-- Removal from an association list, modelling `Map.delete`. -/
def assocDelete {κ α : Type} [DecidableEq κ] : List (κ × α) → κ → List (κ × α)
  | [], _ => []
  | p :: tl, k => if p.1 = k then tl else p :: assocDelete tl k

/-- Static playlist configuration (index.js:31-54). -/
structure PlaylistConfig where
  id : String
  teamSize : ℕ
  totalSeats : ℕ
  teamSlots0 : List ℕ
  teamSlots1 : List ℕ
  maxPartySize : ℕ
deriving DecidableEq, Repr

/-- The `ranked` playlist: 2v2 over seats 0-3 (index.js:32-42). -/
def rankedConfig : PlaylistConfig :=
  { id := "ranked", teamSize := 2, totalSeats := 4,
    teamSlots0 := [0, 1], teamSlots1 := [2, 3], maxPartySize := 2 }

/-- The `duel` playlist: 1v1 over seats 0 and 2 (index.js:43-53). -/
def duelConfig : PlaylistConfig :=
  { id := "duel", teamSize := 1, totalSeats := 2,
    teamSlots0 := [0], teamSlots1 := [2], maxPartySize := 1 }

/-- One queued party (`createQueueEntry`, index.js:119-144).  Entry ids,
socket ids and player ids are random strings in JS; they are modelled as
naturals, with uniqueness stated as a hypothesis where a claim needs it. -/
structure QEntry where
  eid : ℕ
  socketId : ℕ
  playerId : ℕ
  nickname : String
  partySize : ℕ
  rating : ℚ
  joinedAt : ℤ
  playlist : String
  region : String
  inputMode : String
  pingMs : ℚ
  maxPingMs : ℚ
deriving DecidableEq, Repr

/-- Input-mode compatibility (index.js:96-98). -/
def inputModeCompatible (a b : String) : Bool :=
  a = "mixed" || b = "mixed" || a = b

/-- Wait-time-expanded MMR window of an entry (`mmrRangeForEntry`,
index.js:100-104).  `Math.floor` on the non-negative quotient is integer
division. -/
def mmrRangeForEntry (entry : QEntry) (now : ℤ) : ℚ :=
  let waitMs : ℤ := max 0 (now - entry.joinedAt)
  let expansions : ℤ := waitMs / QUEUE_EXPAND_EVERY_MS
  min QUEUE_MAX_MMR_RANGE (QUEUE_BASE_MMR_RANGE + expansions * QUEUE_EXPAND_STEP)

/-- Total seats of a list of entries (the running `partySize` sums used
throughout the matchmaker). -/
def seatSum (l : List QEntry) : ℕ :=
  (l.map QEntry.partySize).sum

/-- Party-size-weighted rating average (`ratingAverage`, index.js:106-113),
as applied to queue entries, which do carry a `rating` field. -/
def ratingAverage (entries : List QEntry) : ℚ :=
  let totalWeight : ℚ := (seatSum entries : ℕ)
  if totalWeight ≤ 0 then defaultRating
  else (entries.foldl (fun s e => s + e.rating * (e.partySize : ℚ)) 0) / totalWeight

/-- Bucket key of an entry (`getBucketKey`, index.js:115-117). -/
def getBucketKey (e : QEntry) : String :=
  e.playlist ++ "|" ++ e.region

/-- Result of the team-partition search in `findBestTeamPartition`: the two
teams (in the original index order the source reconstructs them in) and the
absolute rating-average gap.  The source returns a map from entry id to team;
`entryTeam` below derives that map. -/
structure Partition where
  team0 : List QEntry
  team1 : List QEntry
  diff : ℚ
deriving DecidableEq, Repr

/-- The `evaluatePartition` closure of `findBestTeamPartition`
(index.js:168-200): reject unless the seats of both teams are exactly `teamSize`,
otherwise keep the partition with strictly smaller average gap. -/
def evaluatePartition (teamSize : ℕ) (team0 team1 : List QEntry)
    (best : Option Partition) : Option Partition :=
  if seatSum team0 = teamSize ∧ seatSum team1 = teamSize then
    let diff := |ratingAverage team0 - ratingAverage team1|
    match best with
    | none => some ⟨team0, team1, diff⟩
    | some b => if diff < b.diff then some ⟨team0, team1, diff⟩ else best
  else best

/-- The `dfs` recursion of `findBestTeamPartition` (index.js:202-215), with
its enclosing loop body inlined.  The source walks indices `start..length`,
pushing index `i` and recursing with `i+1`; here `rest` is the suffix not yet
considered, `team0` the chosen entries (in index order) and `skipped` the
rejected ones, so the complement team evaluated by `evaluatePartition` is
`skipped ++ rest`, exactly the non-chosen indices in index order. -/
def fbpLoop (teamSize : ℕ) :
    List QEntry → List QEntry → List QEntry → ℕ → Option Partition → Option Partition
  | [], _, _, _, best => best
  | e :: tl, skipped, team0, seats, best =>
    let s2 := seats + e.partySize
    let best2 :=
      if s2 = teamSize then evaluatePartition teamSize (team0 ++ [e]) (skipped ++ tl) best
      else if teamSize < s2 then best
      else fbpLoop teamSize tl skipped (team0 ++ [e]) s2 best
    fbpLoop teamSize tl (skipped ++ [e]) team0 seats best2

/-- `findBestTeamPartition` (index.js:164-233).  The top-level `dfs(0, 0)`
call first compares the zero seat count against `teamSize` and otherwise
enters the index loop. -/
def findBestTeamPartition (entries : List QEntry) (teamSize : ℕ) : Option Partition :=
  if teamSize = 0 then evaluatePartition teamSize [] entries none
  else fbpLoop teamSize entries [] [] 0 none

/-- The `assignmentByEntryId` map built from the winning partition
(index.js:222-228): team-0 entries are set first, team-1 entries second, and a
later `Map.set` for the same key overwrites, so a team-1 hit wins. -/
def entryTeam (p : Partition) (eid : ℕ) : Option ℕ :=
  if eid ∈ p.team1.map QEntry.eid then some 1
  else if eid ∈ p.team0.map QEntry.eid then some 0
  else none

/-- The `byTeam` grouping loop of `assignSlots` (index.js:245-251): walk the
entries in order, appending each to the list of its assigned team, failing if an
entry has no team assignment. -/
def groupByTeam (p : Partition) :
    List QEntry → List QEntry × List QEntry → Option (List QEntry × List QEntry)
  | [], acc => some acc
  | e :: tl, acc =>
    match entryTeam p e.eid with
    | none => none
    | some t =>
      if t = 0 then groupByTeam p tl (acc.1 ++ [e], acc.2)
      else groupByTeam p tl (acc.1, acc.2 ++ [e])

/-- The per-team sort of `assignSlots` (index.js:253-260): larger parties
first, ties by earlier join time.  JS `Array.sort` is stable; a stable
insertion sort over the corresponding ordering relation models it. -/
def sortTeamEntries (l : List QEntry) : List QEntry :=
  List.insertionSort
    (fun a b => b.partySize < a.partySize ∨ (a.partySize = b.partySize ∧ a.joinedAt ≤ b.joinedAt)) l

/-- The slot-consuming loop of `assignSlots` (index.js:262-275): each entry
shifts `partySize` seats off the front of the pool of its team, failing when the
pool is too short. -/
def takeSeats (pool : List ℕ) : List QEntry → Option (List (ℕ × List ℕ))
  | [] => some []
  | e :: tl =>
    if pool.length < e.partySize then none
    else
      match takeSeats (pool.drop e.partySize) tl with
      | none => none
      | some r => some ((e.eid, pool.take e.partySize) :: r)

/-- `assignSlots` (index.js:235-277), returning the entry-id-to-seat-list map
as an association list (team-0 entries first, then team-1, matching the
insertion order of the result map in the source). -/
def assignSlots (entries : List QEntry) (p : Partition) (cfg : PlaylistConfig) :
    Option (List (ℕ × List ℕ)) :=
  match groupByTeam p entries ([], []) with
  | none => none
  | some g =>
    match takeSeats cfg.teamSlots0 (sortTeamEntries g.1) with
    | none => none
    | some r0 =>
      match takeSeats cfg.teamSlots1 (sortTeamEntries g.2) with
      | none => none
      | some r1 => some (r0 ++ r1)

/-- Pairwise compatibility checks of the inner loop of `comboCompatible`
(index.js:285-298): input modes, rating gap within the tighter MMR window,
and ping within the tolerance of the other side, both ways. -/
def pairCompat (now : ℤ) (a b : QEntry) : Bool :=
  inputModeCompatible a.inputMode b.inputMode &&
  decide (|a.rating - b.rating| ≤ min (mmrRangeForEntry a now) (mmrRangeForEntry b now)) &&
  decide (a.pingMs ≤ b.maxPingMs) && decide (b.pingMs ≤ a.maxPingMs)

/-- `comboCompatible` (index.js:279-301).  The double loop over `i < j` in the source
is expressed as head-versus-tail recursion: the own ping bound of entry `i`, its
pairwise checks against every later entry, then the same for the tail. -/
def comboCompatible : List QEntry → ℤ → Bool
  | [], _ => true
  | a :: tl, now =>
    decide (a.pingMs ≤ a.maxPingMs) && tl.all (pairCompat now a) && comboCompatible tl now

/-- A fully evaluated candidate combination (the object literal in
`findBestCandidate`, index.js:326-336).  `assignmentByEntryId` is carried as
the partition itself; `slotsByEntryId` as an association list. -/
structure Candidate where
  entries : List QEntry
  part : Partition
  slots : List (ℕ × List ℕ)
  playlist : String
  region : String
  oldestJoinedAt : ℤ
  mmrSpan : ℚ
  teamDiff : ℚ
  avgPing : ℚ
deriving DecidableEq, Repr

/-- `Math.min` over join times (index.js:332); the empty case is never
reached for a playlist with at least one seat. -/
def listMinJoined : List QEntry → ℤ
  | [] => 0
  | e :: tl => tl.foldl (fun m x => min m x.joinedAt) e.joinedAt

/-- `Math.min` over ratings (index.js:333). -/
def listMinRating : List QEntry → ℚ
  | [] => 0
  | e :: tl => tl.foldl (fun m x => min m x.rating) e.rating

/-- `Math.max` over ratings (index.js:333). -/
def listMaxRating : List QEntry → ℚ
  | [] => 0
  | e :: tl => tl.foldl (fun m x => max m x.rating) e.rating

/-- Average ping of a combination (index.js:335). -/
def listAvgPing (l : List QEntry) : ℚ :=
  ((l.map QEntry.pingMs).sum) / (l.length : ℚ)

/-- Playlist of the first entry (`current[0].playlist`, index.js:330). -/
def headPlaylist : List QEntry → String
  | [] => ""
  | e :: _ => e.playlist

/-- Region of the first entry (`current[0].region`, index.js:331). -/
def headRegion : List QEntry → String
  | [] => ""
  | e :: _ => e.region

/-- `compareCandidate` (index.js:146-163): prefer the earliest oldest join
time, then the smaller MMR span, then the smaller team gap, then the lower
average ping. -/
def compareCandidate (a b : Option Candidate) : Option Candidate :=
  match a, b with
  | none, b => b
  | some x, none => some x
  | some x, some y =>
    if x.oldestJoinedAt ≠ y.oldestJoinedAt then
      if x.oldestJoinedAt < y.oldestJoinedAt then some x else some y
    else if x.mmrSpan ≠ y.mmrSpan then
      if x.mmrSpan < y.mmrSpan then some x else some y
    else if x.teamDiff ≠ y.teamDiff then
      if x.teamDiff < y.teamDiff then some x else some y
    else if x.avgPing ≤ y.avgPing then some x else some y

/-- The candidate record built by `evaluateCurrent` (index.js:324-336). -/
def candidateOfParts (cur : List QEntry) (part : Partition) (slotMap : List (ℕ × List ℕ)) :
    Candidate :=
  { entries := cur
    part := part
    slots := slotMap
    playlist := headPlaylist cur
    region := headRegion cur
    oldestJoinedAt := listMinJoined cur
    mmrSpan := listMaxRating cur - listMinRating cur
    teamDiff := part.diff
    avgPing := listAvgPing cur }

/-- The `evaluateCurrent` closure of `findBestCandidate` (index.js:312-338):
keep a combination only if it is pairwise compatible, has a seat-exact team
partition and a successful seat assignment, then fold it into `best` through
`compareCandidate`. -/
def evaluateCurrent (cfg : PlaylistConfig) (now : ℤ) (cur : List QEntry)
    (best : Option Candidate) : Option Candidate :=
  if comboCompatible cur now then
    match findBestTeamPartition cur cfg.teamSize with
    | none => best
    | some part =>
      match assignSlots cur part cfg with
      | none => best
      | some slotMap => compareCandidate best (some (candidateOfParts cur part slotMap))
  else best

/-- The `dfs` recursion of `findBestCandidate` (index.js:340-353), with its
enclosing loop body inlined exactly as in `fbpLoop`: `rest` is the unseen
suffix of the search pool and `cur` the combination built so far. -/
def fbcLoop (cfg : PlaylistConfig) (now : ℤ) :
    List QEntry → List QEntry → ℕ → Option Candidate → Option Candidate
  | [], _, _, best => best
  | e :: tl, cur, seats, best =>
    let s2 := seats + e.partySize
    let best2 :=
      if s2 = cfg.totalSeats then evaluateCurrent cfg now (cur ++ [e]) best
      else if cfg.totalSeats < s2 then best
      else fbcLoop cfg now tl (cur ++ [e]) s2 best
    fbcLoop cfg now tl cur seats best2

/-- The bounded search window of `findBestCandidate`: the sixteen
longest-waiting entries (index.js:307-308).  JS `Array.sort` is stable. -/
def searchPoolOf (entries : List QEntry) : List QEntry :=
  (List.insertionSort (fun a b => a.joinedAt ≤ b.joinedAt) entries).take 16

/-- `findBestCandidate` (index.js:303-357). -/
def findBestCandidate (entries : List QEntry) (now : ℤ) (cfg : PlaylistConfig) :
    Option Candidate :=
  if entries.length < 2 then none
  else if cfg.totalSeats = 0 then evaluateCurrent cfg now [] none
  else fbcLoop cfg now (searchPoolOf entries) [] 0 none

/-- A JS floating-point value in the rating pipeline: either NaN or an exact
number (modelled as a real, since `10 ** x` is a real power).  Every JS
arithmetic operator propagates NaN. -/
inductive JSNum where
  | nan : JSNum
  | num : ℝ → JSNum

/-- JS `+` with NaN propagation. -/
noncomputable def jsAdd : JSNum → JSNum → JSNum
  | .num a, .num b => .num (a + b)
  | _, _ => .nan

/-- JS `-` with NaN propagation. -/
noncomputable def jsSub : JSNum → JSNum → JSNum
  | .num a, .num b => .num (a - b)
  | _, _ => .nan

/-- JS `*` with NaN propagation. -/
noncomputable def jsMul : JSNum → JSNum → JSNum
  | .num a, .num b => .num (a * b)
  | _, _ => .nan

/-- JS `/` with NaN propagation (no division by zero occurs on the paths the
claims exercise). -/
noncomputable def jsDiv : JSNum → JSNum → JSNum
  | .num a, .num b => .num (a / b)
  | _, _ => .nan

/-- JS `10 ** x`: NaN on NaN, else the real power. -/
noncomputable def jsPowTen : JSNum → JSNum
  | .nan => .nan
  | .num x => .num ((10 : ℝ) ^ x)

/-- JS `Math.round`: NaN on NaN, else round half toward positive infinity. -/
noncomputable def jsRound : JSNum → JSNum
  | .nan => .nan
  | .num x => .num ((⌊x + 1 / 2⌋ : ℤ) : ℝ)

/-- The clamp helper of the server (index.js:56-58), `Math.max(min, Math.min(max,
value))`, on JS numbers: both `Math.min` and `Math.max` return NaN when an
argument is NaN. -/
noncomputable def jsClamp (value lo hi : JSNum) : JSNum :=
  match value, lo, hi with
  | .num v, .num a, .num b => .num (max a (min b v))
  | _, _, _ => .nan

/-- JS unary negation with NaN propagation. -/
noncomputable def jsNeg : JSNum → JSNum
  | .nan => .nan
  | .num a => .num (-a)

/-- One member of an active room, as built in `createRoomFromReady`
(index.js:820-833).  Note the record carries `ratingBefore` and `ratingAfter`
but no `rating` field.  `ratingAfter` is a `JSNum` because `endRoom` writes
the rating-change result (which can be NaN) into it. -/
structure RoomMember where
  playerId : ℕ
  nickname : String
  partySize : ℕ
  ratingBefore : ℚ
  ratingAfter : JSNum
  team : ℕ
  slots : List ℕ
  reconnectToken : ℕ
  reconnectCount : ℕ
  socketId : Option ℕ
  disconnectedAt : Option ℤ
  abandoned : Bool

/-- An active room (index.js:796-815), restricted to the fields the
matchmaking lifecycle reads: the game-simulation fields are a black box to this
core and `lastSnapshot.score` is carried directly as the two team scores. -/
structure Room where
  id : ℕ
  playlist : String
  region : String
  seed : String
  startedAt : ℤ
  members : List RoomMember
  score0 : ℕ
  score1 : ℕ
  ended : Bool

/-- The abandoned-marking step inside `shouldEndRoom` (index.js:1089-1094):
a member with no socket and a disconnect timestamp older than the grace
window is flagged abandoned. -/
def markAbandonedMember (now : ℤ) (m : RoomMember) : RoomMember :=
  match m.socketId, m.disconnectedAt with
  | none, some d =>
    if RECONNECT_GRACE_MS < now - d then { m with abandoned := true } else m
  | _, _ => m

/-- Winner as derived from the score (index.js:1073 and 1081): null on a tie,
else the higher-scoring team. -/
def scoreWinner (s0 s1 : ℕ) : Option ℕ :=
  if s0 = s1 then none else if s1 < s0 then some 0 else some 1

/-- An end-of-room decision (the objects returned by `shouldEndRoom`,
index.js:1070-1109). -/
structure EndDecision where
  reason : String
  winner : Option ℕ
deriving DecidableEq, Repr

/-- `shouldEndRoom` (index.js:1070-1109).  The function mutates
`member.abandoned` before the team-abandonment check, so it returns the
updated room together with the decision. -/
def shouldEndRoom (room : Room) (now : ℤ) : Room × Option EndDecision :=
  if SCORE_LIMIT ≤ max room.score0 room.score1 then
    (room, some ⟨"Limite de puntuacion alcanzado", scoreWinner room.score0 room.score1⟩)
  else if MATCH_MAX_DURATION_MS < now - room.startedAt then
    (room, some ⟨"Tiempo maximo de partida alcanzado", scoreWinner room.score0 room.score1⟩)
  else
    let members := room.members.map (markAbandonedMember now)
    let active0 := members.any (fun m => m.team = 0 && !m.abandoned)
    let active1 := members.any (fun m => m.team = 1 && !m.abandoned)
    let room2 := { room with members := members }
    if !active0 || !active1 then
      (room2, some ⟨"Equipo completo abandono la partida",
        if !active0 && !active1 then none else if active0 then some 0 else some 1⟩)
    else (room2, none)

/-- The member mutation of the `leaveMatch` handler (index.js:1336-1338): the
leaving member is detached, its disconnect timestamp set to the present
instant, and it is flagged abandoned immediately. -/
def leaveMatchMember (m : RoomMember) (now : ℤ) : RoomMember :=
  { m with socketId := none, disconnectedAt := some now, abandoned := true }

/-- The member mutation of `markMemberDisconnected` (index.js:991-994): drop
the socket and stamp the disconnect time if not already disconnected. -/
def disconnectMember (m : RoomMember) (now : ℤ) : RoomMember :=
  { m with socketId := none,
           disconnectedAt := if m.disconnectedAt = none then some now else m.disconnectedAt }

/-- The member mutation of a successful reconnection (index.js:1038-1040):
attach the new socket, clear the disconnect timestamp, bump the counter. -/
def reconnectMember (m : RoomMember) (sid : ℕ) : RoomMember :=
  { m with socketId := some sid, disconnectedAt := none,
           reconnectCount := m.reconnectCount + 1 }

/-- Room-member lookup by player id (`room.members.get(state.playerId)`;
members are keyed by `playerId` in the member map of the room). -/
def findMember (room : Room) (pid : ℕ) : Option RoomMember :=
  room.members.find? (fun m => m.playerId = pid)

/-- Replace the member with the given player id (object mutation of the entry
held in the member map of the room). -/
def setMember (room : Room) (m : RoomMember) : Room :=
  { room with members := room.members.map (fun x => if x.playerId = m.playerId then m else x) }

/-- `tryReconnectToRoom` (index.js:1012-1068) on the live-room map: `none`
models `return false` (the attempt is rejected with no state change), `some`
returns the map with the member re-attached.  The payload is `none` when the
client presented no (roomId, token) pair. -/
def tryReconnectToRoom (rooms : List (ℕ × Room)) (playerId : ℕ)
    (payload : Option (ℕ × ℕ)) (sid : ℕ) (now : ℤ) : Option (List (ℕ × Room)) :=
  match payload with
  | none => none
  | some (roomId, token) =>
    match assocGet rooms roomId with
    | none => none
    | some room =>
      match findMember room playerId with
      | none => none
      | some member =>
        if member.reconnectToken ≠ token then none
        else
          match member.disconnectedAt with
          | some d =>
            if RECONNECT_GRACE_MS < now - d then none
            else some (assocSet rooms roomId (setMember room (reconnectMember member sid)))
          | none => some (assocSet rooms roomId (setMember room (reconnectMember member sid)))

/-- Party-size-weighted rating average as invoked by `buildRatingChanges`
(index.js:374-375) on ROOM MEMBERS.  `ratingAverage` reads `entry.rating`
(index.js:111), but a room member has no `rating` property (see
`RoomMember`), so the JS access yields `undefined` and
`undefined * entry.partySize` is NaN, which the running sum then propagates. -/
noncomputable def ratingAverageMembers (members : List RoomMember) : JSNum :=
  let totalWeight : ℚ := ((members.map RoomMember.partySize).sum : ℕ)
  if totalWeight ≤ 0 then .num ((defaultRating : ℚ) : ℝ)
  else
    jsDiv (members.foldl (fun s m => jsAdd s (jsMul JSNum.nan (.num (m.partySize : ℝ)))) (.num 0))
      (.num ((totalWeight : ℚ) : ℝ))

/-- One entry of the list `buildRatingChanges` returns (index.js:380-399). -/
structure RatingChange where
  playerId : ℕ
  delta : JSNum
  ratingBefore : ℚ
  ratingAfter : JSNum
  abandoned : Bool
  reconnectCount : ℕ
  result : String
  team : ℕ
  slots : List ℕ
  partySize : ℕ

/-- `buildRatingChanges` (index.js:371-400): Elo-style delta from the two
team averages, negated for team 1, abandon penalty subtracted, and the final
rating clamped to [100, 4000]. -/
noncomputable def buildRatingChanges (participants : List RoomMember)
    (winnerTeam : Option ℕ) : List RatingChange :=
  let team0 := participants.filter (fun m => m.team = 0)
  let team1 := participants.filter (fun m => m.team = 1)
  let avg0 := ratingAverageMembers team0
  let avg1 := ratingAverageMembers team1
  let expected0 := jsDiv (.num 1) (jsAdd (.num 1) (jsPowTen (jsDiv (jsSub avg1 avg0) (.num 400))))
  let result0 : ℝ := match winnerTeam with | none => 1 / 2 | some 0 => 1 | some _ => 0
  let delta0 := jsRound (jsMul (.num ((ELO_K : ℚ) : ℝ)) (jsSub (.num result0) expected0))
  participants.map (fun m =>
    let d1 := if m.team = 0 then delta0 else jsNeg delta0
    let delta := if m.abandoned then jsSub d1 (.num ((ABANDON_PENALTY : ℚ) : ℝ)) else d1
    { playerId := m.playerId
      delta := delta
      ratingBefore := m.ratingBefore
      ratingAfter := jsClamp (jsRound (jsAdd (.num ((m.ratingBefore : ℚ) : ℝ)) delta))
          (.num 100) (.num 4000)
      abandoned := m.abandoned
      reconnectCount := m.reconnectCount
      result := match winnerTeam with
        | none => "draw"
        | some w => if w = m.team then "win" else "loss"
      team := m.team
      slots := m.slots
      partySize := m.partySize })

/-- The match record handed to `persistence.applyMatchResult`
(index.js:639-650). -/
structure MatchRecord where
  matchId : ℕ
  playlist : String
  seed : String
  team0Score : ℕ
  team1Score : ℕ
  winnerTeam : Option ℕ
  startedAt : ℤ
  endedAt : ℤ
  players : List RatingChange

/-- The slice of process-wide state `endRoom` touches: the live-room map
(index.js:410), the persisted match list (`MemoryPersistence.matches`,
persistence.js:40 and 183-186), and the log of `matchEnded` emissions sent by
`finishRoomForSockets` (index.js:583-600), one per member with a live socket.
The sync of `socketState.rating` is orthogonal to the claims and omitted. -/
structure ServerState where
  activeRooms : List (ℕ × Room)
  persistedMatches : List MatchRecord
  matchEndedLog : List (ℕ × ℕ × String)

/-- `endRoom` (index.js:602-662) together with `finishRoomForSockets`
(index.js:583-600): guarded by the `ended` flag, it flags the room ended,
deletes it from the live map, computes the rating changes, stores them on the
members, persists exactly one match record, and notifies each connected
member once.  Returns the new server state and the mutated room object. -/
noncomputable def endRoom (s : ServerState) (room : Room) (reason : String)
    (explicitWinner : Option ℕ) (now : ℤ) : ServerState × Room :=
  if room.ended then (s, room)
  else
    let winnerTeam : Option ℕ :=
      match explicitWinner with
      | none => scoreWinner room.score0 room.score1
      | some w => some w
    let ratingChanges := buildRatingChanges room.members winnerTeam
    let members2 := room.members.map (fun m =>
      match ratingChanges.find? (fun c => c.playerId = m.playerId) with
      | none => m
      | some c => { m with ratingAfter := c.ratingAfter })
    let room2 : Room := { room with ended := true, members := members2 }
    let record : MatchRecord :=
      { matchId := room.id, playlist := room.playlist, seed := room.seed,
        team0Score := room.score0, team1Score := room.score1,
        winnerTeam := winnerTeam, startedAt := room.startedAt, endedAt := now,
        players := ratingChanges }
    ( { activeRooms := assocDelete s.activeRooms room.id
        persistedMatches := s.persistedMatches ++ [record]
        matchEndedLog :=
          s.matchEndedLog ++
            (room.members.filterMap RoomMember.socketId).map (fun sid => (sid, room.id, reason)) },
      room2 )

/-- `normalizePlaylist` (index.js:68-74); `none` models `undefined`. -/
def normalizePlaylist (value : Option String) : String :=
  let normalized := ((value.getD "ranked").toLower).trim
  if normalized = "duel" ∨ normalized = "1v1" then "duel" else "ranked"

/-- `getPlaylistConfig` (index.js:76-78): unknown keys fall back to ranked. -/
def getPlaylistConfig (playlist : String) : PlaylistConfig :=
  if playlist = "duel" then duelConfig else rankedConfig

/-- `normalizeRegion` (index.js:80-86). -/
def normalizeRegion (value : Option String) : String :=
  let normalized := (((value.getD "na").toLower).trim).take 8
  if normalized = "" then "na" else normalized

/-- `normalizeInputMode` (index.js:88-94). -/
def normalizeInputMode (value : Option String) : String :=
  let normalized := (value.getD "mixed").toLower
  if normalized = "keyboard" ∨ normalized = "controller" then normalized else "mixed"

/-- `sanitizeNickname` (index.js:60-66). -/
def sanitizeNickname (value : Option String) : String :=
  let s := ((value.getD "Jugador").trim).take 18
  if s = "" then "Jugador" else s

/-- The clamp helper of the server (index.js:56-58) on integers, argument order
as in `clamp(value, min, max)`. -/
def clampI (lo hi v : ℤ) : ℤ :=
  max lo (min hi v)

/-- The clamp helper of the server on exact rationals. -/
def clampQ (lo hi v : ℚ) : ℚ :=
  max lo (min hi v)

/-- JS `Number(x) || dflt`: an absent value (`Number(undefined)` is NaN) and
a zero are both falsy and replaced by the default. -/
def numberOr (v : Option ℤ) (dflt : ℤ) : ℤ :=
  match v with
  | none => dflt
  | some x => if x = 0 then dflt else x

/-- Like `numberOr` on rationals (for `maxPingMs`). -/
def numberOrQ (v : Option ℚ) (dflt : ℚ) : ℚ :=
  match v with
  | none => dflt
  | some x => if x = 0 then dflt else x

/-- Per-socket server state (index.js:1236-1255), restricted to the fields
the queue and ready-check paths read and write. -/
structure SocketStateE where
  socketId : ℕ
  playerId : ℕ
  nickname : String
  rating : Option ℚ
  partySize : ℕ
  playlist : String
  region : String
  inputMode : String
  pendingReadyId : Option ℕ
  roomId : Option ℕ
  slots : List ℕ
  pingMs : Option ℚ
deriving DecidableEq, Repr

/-- A `joinQueue` payload (index.js:470-478); each field may be absent. -/
structure JoinPayload where
  nickname : Option String
  partySize : Option ℤ
  playlist : Option String
  region : Option String
  inputMode : Option String
  maxPingMs : Option ℚ
deriving DecidableEq, Repr

/-- The queue registries `queueByBucket` and `queueEntryBySocket`
(index.js:408-409): buckets keyed by `playlist|region` holding join-time
ordered entry lists, and the socket-to-(bucket, entry) index.  `nextEntryId`
models the fresh random entry ids. -/
structure QueueState where
  buckets : List (String × List QEntry)
  entryBySocket : List (ℕ × String × ℕ)
  nextEntryId : ℕ
deriving DecidableEq, Repr

/-- `enqueueFromSocketState` (index.js:470-526): normalize and clamp the
request, update the socket state, build the entry with a join time offset
into the past by `priorityMs`, and insert it into its bucket keeping the
bucket sorted by join time.  The `queued` and notice emissions do not affect
queue state and are not modelled. -/
def enqueueFromSocketState (qs : QueueState) (state : SocketStateE)
    (payload : JoinPayload) (priorityMs : ℤ) (now : ℤ) :
    QueueState × SocketStateE × QEntry :=
  let playlist := normalizePlaylist payload.playlist
  let cfg := getPlaylistConfig playlist
  let region := normalizeRegion payload.region
  let inputMode := normalizeInputMode payload.inputMode
  let nickname := sanitizeNickname (some ((payload.nickname).getD state.nickname))
  let requested := clampI 1 4 (numberOr payload.partySize 1)
  let partySize := (clampI 1 (cfg.maxPartySize : ℤ) requested).toNat
  let maxPingMs := clampQ 80 500 (numberOrQ payload.maxPingMs DEFAULT_MAX_PING_MS)
  let state2 := { state with nickname := nickname, partySize := partySize,
                             playlist := playlist, region := region, inputMode := inputMode }
  let joinedAt := now - max 0 priorityMs
  let entry : QEntry :=
    { eid := qs.nextEntryId, socketId := state.socketId, playerId := state.playerId,
      nickname := nickname, partySize := partySize,
      rating := state.rating.getD defaultRating, joinedAt := joinedAt,
      playlist := playlist, region := region, inputMode := inputMode,
      pingMs := state.pingMs.getD 80, maxPingMs := maxPingMs }
  let key := getBucketKey entry
  let list := (assocGet qs.buckets key).getD []
  let list2 := List.insertionSort (fun a b => a.joinedAt ≤ b.joinedAt) (list ++ [entry])
  ({ buckets := assocSet qs.buckets key list2
     entryBySocket := assocSet qs.entryBySocket state.socketId (key, entry.eid)
     nextEntryId := qs.nextEntryId + 1 }, state2, entry)

/-- The `findIndex`-plus-`splice` removal in `removeQueueEntry`
(index.js:432-435): drop the first entry with the given id. -/
def eraseFirstEntry : List QEntry → ℕ → List QEntry
  | [], _ => []
  | e :: tl, eid => if e.eid = eid then tl else e :: eraseFirstEntry tl eid

/-- `removeQueueEntry` (index.js:426-441). -/
def removeQueueEntry (qs : QueueState) (sid : ℕ) : QueueState :=
  match assocGet qs.entryBySocket sid with
  | none => qs
  | some cur =>
    let list := (assocGet qs.buckets cur.1).getD []
    let list2 := eraseFirstEntry list cur.2
    let buckets2 :=
      if list2.length = 0 then assocDelete qs.buckets cur.1
      else assocSet qs.buckets cur.1 list2
    { buckets := buckets2, entryBySocket := assocDelete qs.entryBySocket sid,
      nextEntryId := qs.nextEntryId }

/-- One member of a pending ready-check (index.js:698-717). -/
structure ReadyMember where
  socketId : ℕ
  playerId : ℕ
  nickname : String
  partySize : ℕ
  ratingBefore : ℚ
  team : ℕ
  slots : List ℕ
  reconnectToken : ℕ
  inputMode : String
deriving DecidableEq, Repr

/-- A pending ready-check (index.js:723-733); `accepted` is the player-id
set, modelled as a duplicate-free list grown by `acceptReady`. -/
structure ReadyCheck where
  id : ℕ
  playlist : String
  region : String
  seed : String
  members : List ReadyMember
  accepted : List ℕ
  createdAt : ℤ
  expiresAt : ℤ
deriving DecidableEq, Repr

/-- The instant the cancellation timer of a ready-check is armed for: the
`setTimeout` delay is `READY_CHECK_MS + 80` (index.js:742), 80ms after the
`expiresAt` advertised to clients (index.js:731). -/
def readyTimerFiresAt (createdAt : ℤ) : ℤ :=
  createdAt + READY_CHECK_MS + 80

/-- The slice of process-wide state the ready-check paths touch: the
pending-ready map (index.js:411), the socket states, the player-to-socket
index (index.js:413), the queue, plus event logs: re-enqueue calls made by
`cancelReadyCheck`, `readyCancelled` emissions, and hand-offs to
`createRoomFromReady`. -/
structure MMState where
  pending : List (ℕ × ReadyCheck)
  socketStates : List (ℕ × SocketStateE)
  playerSocket : List (ℕ × ℕ)
  queue : QueueState
  requeueLog : List (ℕ × QEntry)
  cancelNoticeLog : List (ℕ × ℕ × String)
  confirmLog : List ReadyCheck
deriving DecidableEq, Repr

/-- `clearPendingReadyAssociation` (index.js:528-535). -/
def clearPendingAssoc (ready : ReadyCheck) (states : List (ℕ × SocketStateE)) :
    List (ℕ × SocketStateE) :=
  ready.members.foldl (fun st m =>
    match assocGet st m.socketId with
    | none => st
    | some s =>
      if s.pendingReadyId = some ready.id then
        assocSet st m.socketId { s with pendingReadyId := none }
      else st) states

/-- The re-enqueue loop body of `cancelReadyCheck` (index.js:553-580): skip
the excluded player, skip non-acceptors when `acceptedOnly`, skip members
with no live socket, no socket state, or an active room; otherwise withdraw
any stale queue entry and re-enqueue with the priority offset. -/
def cancelStep (ready : ReadyCheck) (acceptedOnly : Bool) (excludePlayerId : Option ℕ)
    (now : ℤ) (st : MMState) (member : ReadyMember) : MMState :=
  if some member.playerId = excludePlayerId then st
  else if acceptedOnly = true ∧ member.playerId ∉ ready.accepted then st
  else
    match assocGet st.playerSocket member.playerId with
    | none => st
    | some currentSocketId =>
      match assocGet st.socketStates currentSocketId with
      | none => st
      | some state =>
        if state.roomId ≠ none then st
        else
          let q1 := removeQueueEntry st.queue currentSocketId
          let payload : JoinPayload :=
            { nickname := some member.nickname, partySize := some (member.partySize : ℤ),
              playlist := some ready.playlist, region := some ready.region,
              inputMode := some member.inputMode, maxPingMs := none }
          let r := enqueueFromSocketState q1 state payload QUEUE_REQUEUE_PRIORITY_MS now
          { st with queue := r.1,
                    socketStates := assocSet st.socketStates currentSocketId r.2.1,
                    requeueLog := st.requeueLog ++ [(member.playerId, r.2.2)] }

/-- `cancelReadyCheck` (index.js:537-581): a no-op when the check is no
longer pending; otherwise delete it, clear the pending association of the members,
notify every member, then run the re-enqueue loop. -/
def cancelReadyCheck (st : MMState) (readyId : ℕ) (reason : String)
    (acceptedOnly : Bool) (excludePlayerId : Option ℕ) (now : ℤ) : MMState :=
  match assocGet st.pending readyId with
  | none => st
  | some ready =>
    let st1 : MMState :=
      { st with pending := assocDelete st.pending readyId,
                socketStates := clearPendingAssoc ready st.socketStates,
                cancelNoticeLog :=
                  st.cancelNoticeLog ++ ready.members.map (fun m => (m.socketId, ready.id, reason)) }
    ready.members.foldl (cancelStep ready acceptedOnly excludePlayerId now) st1

/-- `acceptReady` (index.js:885-928).  Note there is no comparison of `now`
against the `expiresAt` of the check: a still-pending check accepts (and can
confirm) at any time.  Confirmation deletes the check from the pending map
and hands it to `createRoomFromReady`, logged in `confirmLog`.  The
`readyUpdate` broadcast does not change matchmaking state. -/
def acceptReady (st : MMState) (sid : ℕ) (payloadMatchId : Option ℕ)
    (accept : Bool) (now : ℤ) : MMState :=
  match assocGet st.socketStates sid with
  | none => st
  | some state =>
    match state.pendingReadyId with
    | none => st
    | some pendingId =>
      let readyId := payloadMatchId.getD pendingId
      match assocGet st.pending readyId with
      | none =>
        { st with socketStates := assocSet st.socketStates sid { state with pendingReadyId := none } }
      | some ready =>
        match ready.members.find? (fun m => m.playerId = state.playerId) with
        | none => st
        | some _ =>
          if accept = false then
            cancelReadyCheck st readyId "Un jugador rechazo el ready-check" true
              (some state.playerId) now
          else
            let accepted2 :=
              if state.playerId ∈ ready.accepted then ready.accepted
              else ready.accepted ++ [state.playerId]
            let ready2 := { ready with accepted := accepted2 }
            let st2 := { st with pending := assocSet st.pending readyId ready2 }
            if accepted2.length < ready2.members.length then st2
            else
              { st2 with pending := assocDelete st2.pending readyId,
                         socketStates := clearPendingAssoc ready2 st2.socketStates,
                         confirmLog := st2.confirmLog ++ [ready2] }

/-- The ready-check timeout callback (index.js:736-742): when it fires it
re-checks that the check is still pending and then cancels it with
`acceptedOnly` re-queueing. -/
def readyTimeoutFire (st : MMState) (readyId : ℕ) (now : ℤ) : MMState :=
  match assocGet st.pending readyId with
  | none => st
  | some _ => cancelReadyCheck st readyId "Ready-check expiro" true none now

/-! ### Invariants of the team-partition search -/

/-- Seat-exactness and element preservation of a partition produced by
`findBestTeamPartition` over the input list `entries0`. -/
def PartOK (entries0 : List QEntry) (ts : ℕ) (p : Partition) : Prop :=
  seatSum p.team0 = ts ∧ seatSum p.team1 = ts ∧ (p.team0 ++ p.team1).Perm entries0

theorem seatSum_of_perm {l1 l2 : List QEntry} (h : l1.Perm l2) : seatSum l1 = seatSum l2 :=
  (h.map QEntry.partySize).sum_eq

theorem evaluatePartition_ok {entries0 : List QEntry} {ts : ℕ}
    {team0 team1 : List QEntry} {best : Option Partition}
    (hperm : (team0 ++ team1).Perm entries0)
    (hbest : ∀ p, best = some p → PartOK entries0 ts p) :
    ∀ p, evaluatePartition ts team0 team1 best = some p → PartOK entries0 ts p := by
  intro p hp
  unfold evaluatePartition at hp
  split at hp
  · next hseats =>
    cases best with
    | none =>
      simp only [Option.some.injEq] at hp
      subst hp
      exact ⟨hseats.1, hseats.2, hperm⟩
    | some b =>
      simp only at hp
      split at hp
      · simp only [Option.some.injEq] at hp
        subst hp
        exact ⟨hseats.1, hseats.2, hperm⟩
      · exact hbest p hp
  · exact hbest p hp

theorem perm_pull_mid (team0 skipped tl : List QEntry) (e : QEntry) :
    ((team0 ++ [e]) ++ (skipped ++ tl)).Perm (team0 ++ (skipped ++ e :: tl)) := by
  have h : (team0 ++ [e]) ++ (skipped ++ tl) = team0 ++ e :: (skipped ++ tl) := by
    simp
  rw [h]
  exact List.Perm.append_left team0 List.perm_middle.symm

theorem fbpLoop_ok (ts : ℕ) (entries0 : List QEntry) :
    ∀ (rest skipped team0 : List QEntry) (seats : ℕ) (best : Option Partition),
      (team0 ++ (skipped ++ rest)).Perm entries0 →
      (∀ p, best = some p → PartOK entries0 ts p) →
      ∀ p, fbpLoop ts rest skipped team0 seats best = some p → PartOK entries0 ts p := by
  intro rest
  induction rest with
  | nil =>
    intro skipped team0 seats best _ hbest p hp
    exact hbest p hp
  | cons e tl ih =>
    intro skipped team0 seats best hperm hbest p hp
    simp only [fbpLoop] at hp
    have hpermIns : ((team0 ++ [e]) ++ (skipped ++ tl)).Perm entries0 :=
      (perm_pull_mid team0 skipped tl e).trans hperm
    have hbest2 : ∀ q,
        (if seats + e.partySize = ts then
          evaluatePartition ts (team0 ++ [e]) (skipped ++ tl) best
        else if ts < seats + e.partySize then best
        else fbpLoop ts tl skipped (team0 ++ [e]) (seats + e.partySize) best) = some q →
        PartOK entries0 ts q := by
      intro q hq
      split at hq
      · exact evaluatePartition_ok hpermIns hbest q hq
      · split at hq
        · exact hbest q hq
        · exact ih skipped (team0 ++ [e]) (seats + e.partySize) best hpermIns hbest q hq
    have hperm2 : (team0 ++ ((skipped ++ [e]) ++ tl)).Perm entries0 := by
      have : (skipped ++ [e]) ++ tl = skipped ++ e :: tl := by simp
      rw [this]
      exact hperm
    exact ih (skipped ++ [e]) team0 seats _ hperm2 hbest2 p hp

theorem findBestTeamPartition_ok {entries : List QEntry} {ts : ℕ} {p : Partition}
    (h : findBestTeamPartition entries ts = some p) : PartOK entries ts p := by
  unfold findBestTeamPartition at h
  split at h
  · exact evaluatePartition_ok (by simp) (by intro q hq; cases hq) p h
  · exact fbpLoop_ok ts entries entries [] [] 0 none (by simp) (by intro q hq; cases hq) p h

/-! ### Invariants of the slot assignment -/

theorem groupByTeam_eq (p : Partition) :
    ∀ (l : List QEntry) (a0 a1 g0 g1 : List QEntry),
      groupByTeam p l (a0, a1) = some (g0, g1) →
      g0 = a0 ++ l.filter (fun e => entryTeam p e.eid = some 0) ∧
      g1 = a1 ++ l.filter (fun e => ¬(entryTeam p e.eid = some 0)) := by
  intro l
  induction l with
  | nil =>
    intro a0 a1 g0 g1 h
    simp only [groupByTeam, Option.some.injEq, Prod.mk.injEq] at h
    simp [h.1, h.2]
  | cons e tl ih =>
    intro a0 a1 g0 g1 h
    simp only [groupByTeam] at h
    cases hteam : entryTeam p e.eid with
    | none => rw [hteam] at h; cases h
    | some t =>
      rw [hteam] at h
      dsimp only at h
      by_cases ht : t = 0
      · rw [if_pos ht] at h
        obtain ⟨h0, h1⟩ := ih (a0 ++ [e]) a1 g0 g1 h
        subst ht
        constructor
        · rw [h0, List.filter_cons_of_pos (by simp [hteam]), List.append_assoc]
          rfl
        · rw [h1, List.filter_cons_of_neg (by simp [hteam])]
      · rw [if_neg ht] at h
        obtain ⟨h0, h1⟩ := ih a0 (a1 ++ [e]) g0 g1 h
        constructor
        · rw [h0, List.filter_cons_of_neg (by simp [hteam, ht])]
        · rw [h1, List.filter_cons_of_pos (by simp [hteam, ht]), List.append_assoc]
          rfl

theorem filter_team_perm {entries : List QEntry} {p : Partition}
    (hnd : (entries.map QEntry.eid).Nodup)
    (hperm : (p.team0 ++ p.team1).Perm entries) :
    (entries.filter (fun e => entryTeam p e.eid = some 0)).Perm p.team0 ∧
    (entries.filter (fun e => ¬(entryTeam p e.eid = some 0))).Perm p.team1 := by
  have hndT : ((p.team0 ++ p.team1).map QEntry.eid).Nodup :=
    ((hperm.map QEntry.eid).nodup_iff).mpr hnd
  rw [List.map_append, List.nodup_append] at hndT
  obtain ⟨-, -, hdisj⟩ := hndT
  have hteam0 : ∀ e ∈ p.team0, entryTeam p e.eid = some 0 := by
    intro e he
    have h1 : e.eid ∉ p.team1.map QEntry.eid := fun hmem =>
      hdisj (List.mem_map_of_mem QEntry.eid he) hmem
    have h0 : e.eid ∈ p.team0.map QEntry.eid := List.mem_map_of_mem QEntry.eid he
    simp [entryTeam, h0, h1]
  have hteam1 : ∀ e ∈ p.team1, entryTeam p e.eid = some 1 := by
    intro e he
    have h1 : e.eid ∈ p.team1.map QEntry.eid := List.mem_map_of_mem QEntry.eid he
    simp [entryTeam, h1]
  constructor
  · have h1 : (entries.filter (fun e => entryTeam p e.eid = some 0)).Perm
        ((p.team0 ++ p.team1).filter (fun e => entryTeam p e.eid = some 0)) :=
      (hperm.filter _).symm
    have h2 : (p.team0 ++ p.team1).filter (fun e => entryTeam p e.eid = some 0) = p.team0 := by
      rw [List.filter_append, List.filter_eq_self.mpr (by intro a ha; simpa using hteam0 a ha),
        List.filter_eq_nil_iff.mpr (by intro a ha; simp [hteam1 a ha]), List.append_nil]
    rw [h2] at h1
    exact h1
  · have h1 : (entries.filter (fun e => ¬(entryTeam p e.eid = some 0))).Perm
        ((p.team0 ++ p.team1).filter (fun e => ¬(entryTeam p e.eid = some 0))) :=
      (hperm.filter _).symm
    have h2 : (p.team0 ++ p.team1).filter (fun e => ¬(entryTeam p e.eid = some 0)) = p.team1 := by
      rw [List.filter_append, List.filter_eq_nil_iff.mpr (by intro a ha; simp [hteam0 a ha]),
        List.filter_eq_self.mpr (by intro a ha; simp [hteam1 a ha]), List.nil_append]
    rw [h2] at h1
    exact h1

theorem takeSeats_eq :
    ∀ (l : List QEntry) (pool : List ℕ) (r : List (ℕ × List ℕ)),
      takeSeats pool l = some r →
      seatSum l ≤ pool.length ∧ (r.map Prod.snd).flatten = pool.take (seatSum l) := by
  intro l
  induction l with
  | nil =>
    intro pool r h
    simp only [takeSeats, Option.some.injEq] at h
    subst h
    simp [seatSum]
  | cons e tl ih =>
    intro pool r h
    simp only [takeSeats] at h
    split at h
    · cases h
    · next hlen =>
      cases hrec : takeSeats (pool.drop e.partySize) tl with
      | none => rw [hrec] at h; cases h
      | some r' =>
        rw [hrec] at h
        simp only [Option.some.injEq] at h
        subst h
        obtain ⟨hle, hjoin⟩ := ih _ _ hrec
        have hps : e.partySize ≤ pool.length := le_of_not_lt hlen
        have hsum : seatSum (e :: tl) = e.partySize + seatSum tl := by simp [seatSum]
        constructor
        · rw [hsum]
          have := List.length_drop e.partySize pool
          omega
        · rw [hsum, List.take_add]
          simp only [List.map_cons, List.flatten_cons]
          rw [hjoin]

theorem assignSlots_join {entries : List QEntry} {p : Partition} {cfg : PlaylistConfig}
    {sm : List (ℕ × List ℕ)}
    (hnd : (entries.map QEntry.eid).Nodup)
    (hperm : (p.team0 ++ p.team1).Perm entries)
    (h0 : seatSum p.team0 = cfg.teamSize) (h1 : seatSum p.team1 = cfg.teamSize)
    (hlen0 : cfg.teamSlots0.length = cfg.teamSize)
    (hlen1 : cfg.teamSlots1.length = cfg.teamSize)
    (h : assignSlots entries p cfg = some sm) :
    (sm.map Prod.snd).flatten = cfg.teamSlots0 ++ cfg.teamSlots1 := by
  unfold assignSlots at h
  cases hg : groupByTeam p entries ([], []) with
  | none => rw [hg] at h; cases h
  | some g =>
    rw [hg] at h
    dsimp only at h
    obtain ⟨hg0, hg1⟩ := groupByTeam_eq p entries [] [] g.1 g.2 (by rw [hg])
    obtain ⟨hp0, hp1⟩ := filter_team_perm hnd hperm
    have hq0 : (sortTeamEntries g.1).Perm g.1 := List.perm_insertionSort _ g.1
    have hq1 : (sortTeamEntries g.2).Perm g.2 := List.perm_insertionSort _ g.2
    have hs0 : seatSum (sortTeamEntries g.1) = cfg.teamSize := by
      rw [seatSum_of_perm hq0, hg0, List.nil_append, seatSum_of_perm hp0, h0]
    have hs1 : seatSum (sortTeamEntries g.2) = cfg.teamSize := by
      rw [seatSum_of_perm hq1, hg1, List.nil_append, seatSum_of_perm hp1, h1]
    cases ht0 : takeSeats cfg.teamSlots0 (sortTeamEntries g.1) with
    | none => rw [ht0] at h; cases h
    | some r0 =>
      rw [ht0] at h
      cases ht1 : takeSeats cfg.teamSlots1 (sortTeamEntries g.2) with
      | none => rw [ht1] at h; cases h
      | some r1 =>
        rw [ht1] at h
        simp only [Option.some.injEq] at h
        subst h
        obtain ⟨-, hj0⟩ := takeSeats_eq _ _ _ ht0
        obtain ⟨-, hj1⟩ := takeSeats_eq _ _ _ ht1
        rw [hs0] at hj0
        rw [hs1] at hj1
        have e0 : List.take cfg.teamSize cfg.teamSlots0 = cfg.teamSlots0 := by
          rw [← hlen0]; exact List.take_length cfg.teamSlots0
        have e1 : List.take cfg.teamSize cfg.teamSlots1 = cfg.teamSlots1 := by
          rw [← hlen1]; exact List.take_length cfg.teamSlots1
        rw [List.map_append, List.flatten_append, hj0, hj1, e0, e1]

/-! ### Invariants of the candidate search -/

/-- Everything `evaluateCurrent` certifies about a candidate it emits: the
combination passed `comboCompatible`, its recorded partition and slot map are
the (successful) outputs of the partition search and slot assignment on its
own entries, and its entries form a subsequence of the search pool. -/
def evalOkC (cfg : PlaylistConfig) (now : ℤ) (pool0 : List QEntry) (c : Candidate) : Prop :=
  comboCompatible c.entries now = true ∧
  findBestTeamPartition c.entries cfg.teamSize = some c.part ∧
  assignSlots c.entries c.part cfg = some c.slots ∧
  c.entries.Sublist pool0

theorem compareCandidate_or (a b : Option Candidate) :
    compareCandidate a b = a ∨ compareCandidate a b = b := by
  unfold compareCandidate
  cases a with
  | none => right; rfl
  | some x =>
    cases b with
    | none => left; rfl
    | some y =>
      dsimp only
      split_ifs <;> simp

theorem evaluateCurrent_ok {cfg : PlaylistConfig} {now : ℤ} {pool0 cur : List QEntry}
    {best : Option Candidate}
    (hsub : cur.Sublist pool0)
    (hbest : ∀ c, best = some c → evalOkC cfg now pool0 c) :
    ∀ c, evaluateCurrent cfg now cur best = some c → evalOkC cfg now pool0 c := by
  intro c hc
  unfold evaluateCurrent at hc
  split at hc
  · next hcombo =>
    cases hpart : findBestTeamPartition cur cfg.teamSize with
    | none => rw [hpart] at hc; dsimp only at hc; exact hbest c hc
    | some part =>
      rw [hpart] at hc
      dsimp only at hc
      cases hassign : assignSlots cur part cfg with
      | none => rw [hassign] at hc; dsimp only at hc; exact hbest c hc
      | some slotMap =>
        rw [hassign] at hc
        dsimp only at hc
        rcases compareCandidate_or best (some (candidateOfParts cur part slotMap)) with h | h <;>
          rw [h] at hc
        · exact hbest c hc
        · simp only [Option.some.injEq] at hc
          subst hc
          exact ⟨hcombo, hpart, hassign, hsub⟩
  · exact hbest c hc

theorem fbcLoop_ok (cfg : PlaylistConfig) (now : ℤ) (pool0 : List QEntry) :
    ∀ (rest cur : List QEntry) (seats : ℕ) (best : Option Candidate),
      (cur ++ rest).Sublist pool0 →
      (∀ c, best = some c → evalOkC cfg now pool0 c) →
      ∀ c, fbcLoop cfg now rest cur seats best = some c → evalOkC cfg now pool0 c := by
  intro rest
  induction rest with
  | nil =>
    intro cur seats best _ hbest c hc
    exact hbest c hc
  | cons e tl ih =>
    intro cur seats best hsub hbest c hc
    simp only [fbcLoop] at hc
    have hsubIns : ((cur ++ [e]) ++ tl).Sublist pool0 := by
      have : (cur ++ [e]) ++ tl = cur ++ e :: tl := by simp
      rw [this]
      exact hsub
    have hsubEval : (cur ++ [e]).Sublist pool0 :=
      ((List.append_sublist_append_left cur).mpr
        (List.cons_sublist_cons.mpr (List.nil_sublist tl))).trans hsub
    have hbest2 : ∀ q,
        (if seats + e.partySize = cfg.totalSeats then evaluateCurrent cfg now (cur ++ [e]) best
        else if cfg.totalSeats < seats + e.partySize then best
        else fbcLoop cfg now tl (cur ++ [e]) (seats + e.partySize) best) = some q →
        evalOkC cfg now pool0 q := by
      intro q hq
      split at hq
      · exact evaluateCurrent_ok hsubEval hbest q hq
      · split at hq
        · exact hbest q hq
        · exact ih (cur ++ [e]) (seats + e.partySize) best hsubIns hbest q hq
    have hsub2 : (cur ++ tl).Sublist pool0 :=
      ((List.append_sublist_append_left cur).mpr (List.sublist_cons_self e tl)).trans hsub
    exact ih cur seats _ hsub2 hbest2 c hc

theorem findBestCandidate_ok {entries : List QEntry} {now : ℤ} {cfg : PlaylistConfig}
    {c : Candidate} (h : findBestCandidate entries now cfg = some c) :
    evalOkC cfg now (searchPoolOf entries) c := by
  unfold findBestCandidate at h
  split at h
  · cases h
  · split at h
    · exact evaluateCurrent_ok (List.nil_sublist _) (by intro q hq; cases hq) c h
    · exact fbcLoop_ok cfg now (searchPoolOf entries) (searchPoolOf entries) [] 0 none
        (by simp) (by intro q hq; cases hq) c h

theorem searchPool_nodup {entries : List QEntry}
    (hnd : (entries.map QEntry.eid).Nodup) :
    ((searchPoolOf entries).map QEntry.eid).Nodup := by
  have hperm : (List.insertionSort (fun a b => a.joinedAt ≤ b.joinedAt) entries).Perm entries :=
    List.perm_insertionSort _ entries
  have hnd2 : ((List.insertionSort (fun a b => a.joinedAt ≤ b.joinedAt) entries).map
      QEntry.eid).Nodup := ((hperm.map QEntry.eid).nodup_iff).mpr hnd
  exact ((List.take_sublist 16 _).map QEntry.eid).nodup hnd2

/-- C4 — every combination `findBestCandidate` returns assigns each team
parties whose sizes sum to exactly `teamSize`, and the seat indices it hands
out across all members are exactly the configured seat set of the playlist, each
seat exactly once.  Entry ids are fresh random ids, so the input entries are
assumed id-distinct. -/
theorem combination_seats_exact (entries : List QEntry) (now : ℤ) (cfg : PlaylistConfig)
    (c : Candidate)
    (hcfg : cfg = rankedConfig ∨ cfg = duelConfig)
    (hnd : (entries.map QEntry.eid).Nodup)
    (hfind : findBestCandidate entries now cfg = some c) :
    seatSum c.part.team0 = cfg.teamSize ∧ seatSum c.part.team1 = cfg.teamSize ∧
    (c.slots.map Prod.snd).flatten = cfg.teamSlots0 ++ cfg.teamSlots1 ∧
    (cfg.teamSlots0 ++ cfg.teamSlots1).Nodup := by
  obtain ⟨hcombo, hpart, hassign, hsub⟩ := findBestCandidate_ok hfind
  have hndc : (c.entries.map QEntry.eid).Nodup :=
    ((hsub.map QEntry.eid).nodup (searchPool_nodup hnd))
  obtain ⟨h0, h1, hperm⟩ := findBestTeamPartition_ok hpart
  have hlen0 : cfg.teamSlots0.length = cfg.teamSize := by
    rcases hcfg with h | h <;> subst h <;> rfl
  have hlen1 : cfg.teamSlots1.length = cfg.teamSize := by
    rcases hcfg with h | h <;> subst h <;> rfl
  refine ⟨h0, h1, assignSlots_join hndc hperm h0 h1 hlen0 hlen1 hassign, ?_⟩
  rcases hcfg with h | h <;> subst h <;> decide

theorem pairCompat_ping {now : ℤ} {a b : QEntry} (h : pairCompat now a b = true) :
    a.pingMs ≤ b.maxPingMs ∧ b.pingMs ≤ a.maxPingMs := by
  simp only [pairCompat, Bool.and_eq_true, decide_eq_true_eq] at h
  exact ⟨h.1.2, h.2⟩

theorem comboCompatible_pairwise :
    ∀ (l : List QEntry) (now : ℤ), comboCompatible l now = true →
      ∀ a ∈ l, ∀ b ∈ l, a.pingMs ≤ b.maxPingMs := by
  intro l
  induction l with
  | nil => intro now _ a ha; cases ha
  | cons x tl ih =>
    intro now h a ha b hb
    simp only [comboCompatible, Bool.and_eq_true, decide_eq_true_eq,
      List.all_eq_true] at h
    obtain ⟨⟨hx, hpairs⟩, htl⟩ := h
    rcases List.mem_cons.mp ha with ha' | ha' <;> rcases List.mem_cons.mp hb with hb' | hb'
    · subst ha'; subst hb'; exact hx
    · subst ha'; exact (pairCompat_ping (hpairs b hb')).1
    · subst hb'; exact (pairCompat_ping (hpairs a ha')).2
    · exact ih now htl a ha' b hb'

/-- C5 — in every combination `findBestCandidate` proposes, latency tolerance
is satisfied in both directions: no observed ping of an entry exceeds any other
declared maximum acceptable ping of an entry, its own included. -/
theorem combination_latency_tolerance (entries : List QEntry) (now : ℤ)
    (cfg : PlaylistConfig) (c : Candidate)
    (hfind : findBestCandidate entries now cfg = some c) :
    ∀ a ∈ c.entries, ∀ b ∈ c.entries, a.pingMs ≤ b.maxPingMs := by
  obtain ⟨hcombo, -, -, -⟩ := findBestCandidate_ok hfind
  exact comboCompatible_pairwise c.entries now hcombo

/-- A concrete duel-queue entry used to witness the matchmaker theorems. -/
def wEntryA : QEntry :=
  { eid := 1, socketId := 11, playerId := 101, nickname := "a", partySize := 1,
    rating := 1000, joinedAt := 0, playlist := "duel", region := "na",
    inputMode := "mixed", pingMs := 50, maxPingMs := 220 }

/-- A second concrete duel-queue entry. -/
def wEntryB : QEntry :=
  { eid := 2, socketId := 12, playerId := 102, nickname := "b", partySize := 1,
    rating := 1010, joinedAt := 5, playlist := "duel", region := "na",
    inputMode := "mixed", pingMs := 60, maxPingMs := 220 }

/-- The candidate `findBestCandidate` returns on the two witness entries. -/
def wCandidate : Candidate :=
  { entries := [wEntryA, wEntryB],
    part := { team0 := [wEntryA], team1 := [wEntryB], diff := 10 },
    slots := [(1, [0]), (2, [2])],
    playlist := "duel", region := "na", oldestJoinedAt := 0,
    mmrSpan := 10, teamDiff := 10, avgPing := 55 }

/-- Evaluation of the matchmaker on the two witness entries: the search
returns exactly `wCandidate`. -/
theorem wCandidate_found :
    findBestCandidate [wEntryA, wEntryB] 1000 duelConfig = some wCandidate := by
  norm_num [findBestCandidate, searchPoolOf, fbcLoop, evaluateCurrent, comboCompatible,
    pairCompat, inputModeCompatible, mmrRangeForEntry, findBestTeamPartition, fbpLoop,
    evaluatePartition, seatSum, ratingAverage, assignSlots, groupByTeam, entryTeam,
    sortTeamEntries, takeSeats, compareCandidate, candidateOfParts, listMinJoined,
    listMinRating, listMaxRating, listAvgPing, headPlaylist, headRegion, wEntryA, wEntryB,
    wCandidate, duelConfig, defaultRating, QUEUE_EXPAND_EVERY_MS, QUEUE_BASE_MMR_RANGE,
    QUEUE_EXPAND_STEP, QUEUE_MAX_MMR_RANGE, List.insertionSort, List.orderedInsert]

theorem combination_seats_exact_witness :
    (([wEntryA, wEntryB].map QEntry.eid).Nodup) ∧
    (seatSum wCandidate.part.team0 = duelConfig.teamSize ∧
     seatSum wCandidate.part.team1 = duelConfig.teamSize ∧
     (wCandidate.slots.map Prod.snd).flatten = duelConfig.teamSlots0 ++ duelConfig.teamSlots1 ∧
     (duelConfig.teamSlots0 ++ duelConfig.teamSlots1).Nodup) :=
  ⟨by decide,
    combination_seats_exact [wEntryA, wEntryB] 1000 duelConfig wCandidate
      (Or.inr rfl) (by decide) wCandidate_found⟩

theorem combination_latency_tolerance_witness :
    wEntryA.pingMs ≤ wEntryB.maxPingMs ∧ wEntryB.pingMs ≤ wEntryA.maxPingMs :=
  ⟨combination_latency_tolerance [wEntryA, wEntryB] 1000 duelConfig wCandidate
      wCandidate_found wEntryA (by simp [wCandidate]) wEntryB (by simp [wCandidate]),
   combination_latency_tolerance [wEntryA, wEntryB] 1000 duelConfig wCandidate
      wCandidate_found wEntryB (by simp [wCandidate]) wEntryA (by simp [wCandidate])⟩

/-! ### End-condition evaluation -/

/-- Claim-side phrasing of "the members of team `t` are all abandoned". -/
def teamAllAbandoned (ms : List RoomMember) (t : ℕ) : Prop :=
  ∀ m ∈ ms, m.team = t → m.abandoned = true

instance (ms : List RoomMember) (t : ℕ) : Decidable (teamAllAbandoned ms t) := by
  unfold teamAllAbandoned
  infer_instance

theorem teamActive_eq_false_iff (ms : List RoomMember) (t : ℕ) :
    (ms.any (fun m => m.team = t && !m.abandoned)) = false ↔ teamAllAbandoned ms t := by
  rw [List.any_eq_false]
  unfold teamAllAbandoned
  constructor
  · intro h m hm hteam
    have hb := h m hm
    simp only [Bool.and_eq_true, decide_eq_true_eq, Bool.not_eq_true', not_and] at hb
    cases hab : m.abandoned with
    | false => exact absurd hab (hb hteam)
    | true => rfl
  · intro h m hm
    simp only [Bool.and_eq_true, decide_eq_true_eq, Bool.not_eq_true', not_and]
    intro hteam
    rw [h m hm hteam]
    simp

/-- C3 — each tick, `shouldEndRoom` ends the room on the first satisfied
condition in the order: (a) a team reached the score limit, (b) the maximum
match duration was exceeded, (c) the members of one team are all abandoned (after
grace-window marking).  Conditions (a) and (b) give the higher-scoring team
as winner (null on a tie); condition (c) gives the non-abandoned team (null
when both teams are fully abandoned); otherwise the room continues. -/
theorem shouldEndRoom_conditions (room : Room) (now : ℤ) :
    (SCORE_LIMIT ≤ max room.score0 room.score1 →
      (shouldEndRoom room now).2 = some ⟨"Limite de puntuacion alcanzado",
        if room.score0 = room.score1 then none
        else if room.score1 < room.score0 then some 0 else some 1⟩) ∧
    (max room.score0 room.score1 < SCORE_LIMIT →
      MATCH_MAX_DURATION_MS < now - room.startedAt →
      (shouldEndRoom room now).2 = some ⟨"Tiempo maximo de partida alcanzado",
        if room.score0 = room.score1 then none
        else if room.score1 < room.score0 then some 0 else some 1⟩) ∧
    (max room.score0 room.score1 < SCORE_LIMIT →
      now - room.startedAt ≤ MATCH_MAX_DURATION_MS →
      ((teamAllAbandoned (room.members.map (markAbandonedMember now)) 0 ∨
        teamAllAbandoned (room.members.map (markAbandonedMember now)) 1) →
        (shouldEndRoom room now).2 = some ⟨"Equipo completo abandono la partida",
          if teamAllAbandoned (room.members.map (markAbandonedMember now)) 0 ∧
             teamAllAbandoned (room.members.map (markAbandonedMember now)) 1 then none
          else if teamAllAbandoned (room.members.map (markAbandonedMember now)) 1 then some 0
          else some 1⟩) ∧
      ((¬teamAllAbandoned (room.members.map (markAbandonedMember now)) 0) →
       (¬teamAllAbandoned (room.members.map (markAbandonedMember now)) 1) →
        (shouldEndRoom room now).2 = none)) := by
  set ms := room.members.map (markAbandonedMember now) with hms
  refine ⟨?_, ?_, ?_⟩
  · intro h
    simp only [shouldEndRoom, if_pos h]
    rfl
  · intro h1 h2
    simp only [shouldEndRoom, if_neg (not_le.mpr h1), if_pos h2]
    rfl
  · intro h1 h2
    have ha0 := teamActive_eq_false_iff ms 0
    have ha1 := teamActive_eq_false_iff ms 1
    constructor
    · intro hdisj
      by_cases t0 : teamAllAbandoned ms 0 <;> by_cases t1 : teamAllAbandoned ms 1
      · have e0 : ms.any (fun m => m.team = 0 && !m.abandoned) = false := ha0.mpr t0
        have e1 : ms.any (fun m => m.team = 1 && !m.abandoned) = false := ha1.mpr t1
        simp only [shouldEndRoom, if_neg (not_le.mpr h1), if_neg (not_lt.mpr h2), ← hms,
          e0, e1]
        simp [t0, t1]
      · have e0 : ms.any (fun m => m.team = 0 && !m.abandoned) = false := ha0.mpr t0
        have e1 : ms.any (fun m => m.team = 1 && !m.abandoned) = true := by
          cases h : ms.any (fun m => m.team = 1 && !m.abandoned) with
          | false => exact absurd (ha1.mp h) t1
          | true => rfl
        simp only [shouldEndRoom, if_neg (not_le.mpr h1), if_neg (not_lt.mpr h2), ← hms,
          e0, e1]
        simp [t0, t1]
      · have e0 : ms.any (fun m => m.team = 0 && !m.abandoned) = true := by
          cases h : ms.any (fun m => m.team = 0 && !m.abandoned) with
          | false => exact absurd (ha0.mp h) t0
          | true => rfl
        have e1 : ms.any (fun m => m.team = 1 && !m.abandoned) = false := ha1.mpr t1
        simp only [shouldEndRoom, if_neg (not_le.mpr h1), if_neg (not_lt.mpr h2), ← hms,
          e0, e1]
        simp [t0, t1]
      · rcases hdisj with h | h
        · exact absurd h t0
        · exact absurd h t1
    · intro t0 t1
      have e0 : ms.any (fun m => m.team = 0 && !m.abandoned) = true := by
        cases h : ms.any (fun m => m.team = 0 && !m.abandoned) with
        | false => exact absurd (ha0.mp h) t0
        | true => rfl
      have e1 : ms.any (fun m => m.team = 1 && !m.abandoned) = true := by
        cases h : ms.any (fun m => m.team = 1 && !m.abandoned) with
        | false => exact absurd (ha1.mp h) t1
        | true => rfl
      simp only [shouldEndRoom, if_neg (not_le.mpr h1), if_neg (not_lt.mpr h2), ← hms,
        e0, e1]
      simp

/-- A concrete connected team-0 room member for witnesses. -/
def wMemberT0 : RoomMember :=
  { playerId := 201, nickname := "p0", partySize := 1, ratingBefore := 1000,
    ratingAfter := JSNum.nan, team := 0, slots := [0], reconnectToken := 501,
    reconnectCount := 0, socketId := some 31, disconnectedAt := none, abandoned := false }

/-- A concrete connected team-1 room member for witnesses. -/
def wMemberT1 : RoomMember :=
  { playerId := 202, nickname := "p1", partySize := 1, ratingBefore := 1000,
    ratingAfter := JSNum.nan, team := 1, slots := [2], reconnectToken := 502,
    reconnectCount := 0, socketId := some 32, disconnectedAt := none, abandoned := false }

/-- A concrete live room in which team 0 has reached the score limit. -/
def wRoomScore : Room :=
  { id := 1, playlist := "duel", region := "na", seed := "s", startedAt := 0,
    members := [wMemberT0, wMemberT1], score0 := 7, score1 := 0, ended := false }

theorem shouldEndRoom_conditions_witness :
    (SCORE_LIMIT ≤ max wRoomScore.score0 wRoomScore.score1) ∧
    (shouldEndRoom wRoomScore 100).2 =
      some ⟨"Limite de puntuacion alcanzado", some 0⟩ :=
  ⟨by decide, by
    have h := (shouldEndRoom_conditions wRoomScore 100).1 (by decide)
    simpa [wRoomScore] using h⟩

/-- C1 — `endRoom` is idempotent: on a not-yet-ended room it persists exactly
one match record, emits exactly one `matchEnded` notification per connected
member, removes the room from the live map, flags the room ended, and a
second (or any later) invocation on the resulting state and room object
changes nothing. -/
theorem endRoom_idempotent (s : ServerState) (room : Room) (reason : String)
    (w : Option ℕ) (now : ℤ) (reason2 : String) (w2 : Option ℕ) (now2 : ℤ)
    (h : room.ended = false) :
    (endRoom s room reason w now).1.persistedMatches.length =
      s.persistedMatches.length + 1 ∧
    (endRoom s room reason w now).1.matchEndedLog.length =
      s.matchEndedLog.length + (room.members.filterMap RoomMember.socketId).length ∧
    (endRoom s room reason w now).1.activeRooms = assocDelete s.activeRooms room.id ∧
    (endRoom s room reason w now).2.ended = true ∧
    endRoom (endRoom s room reason w now).1 (endRoom s room reason w now).2
        reason2 w2 now2 =
      endRoom s room reason w now := by
  have hcond : ¬(room.ended = true) := by simp [h]
  have hend : (endRoom s room reason w now).2.ended = true := by
    simp only [endRoom, if_neg hcond]
  refine ⟨?_, ?_, ?_, hend, ?_⟩
  · simp only [endRoom, if_neg hcond]
    simp
  · simp only [endRoom, if_neg hcond]
    simp
  · simp only [endRoom, if_neg hcond]
  · conv_lhs => rw [endRoom.eq_def]
    rw [if_pos hend]

theorem endRoom_idempotent_witness :
    (wRoomScore.ended = false) ∧
    (endRoom ⟨[(1, wRoomScore)], [], []⟩ wRoomScore "fin" (some 0) 100).1.persistedMatches.length = 1 ∧
    endRoom (endRoom ⟨[(1, wRoomScore)], [], []⟩ wRoomScore "fin" (some 0) 100).1
        (endRoom ⟨[(1, wRoomScore)], [], []⟩ wRoomScore "fin" (some 0) 100).2 "otra" none 200 =
      endRoom ⟨[(1, wRoomScore)], [], []⟩ wRoomScore "fin" (some 0) 100 := by
  have h := endRoom_idempotent ⟨[(1, wRoomScore)], [], []⟩ wRoomScore "fin" (some 0) 100
    "otra" none 200 rfl
  exact ⟨rfl, h.1, h.2.2.2.2⟩

/-- C2 counterexample — the voluntary `leaveMatch` operation flags a member
abandoned at the very instant it disconnects them: the member was connected
(live socket, no disconnect timestamp) and the flag is set with a disconnect
duration of zero, far below the grace window. -/
theorem leaveMatch_abandons_immediately :
    wMemberT0.abandoned = false ∧
    wMemberT0.socketId = some 31 ∧
    wMemberT0.disconnectedAt = none ∧
    (leaveMatchMember wMemberT0 1000).abandoned = true ∧
    (leaveMatchMember wMemberT0 1000).disconnectedAt = some 1000 ∧
    (1000 : ℤ) - 1000 ≤ RECONNECT_GRACE_MS :=
  ⟨rfl, rfl, rfl, rfl, rfl, by decide⟩

/-- C2 amended — the abandoned flag is set by exactly two operations: the
end-condition check flags a member only when it finds them disconnected for
longer than the grace window, while the voluntary leave-match operation flags
the leaving member immediately; plain disconnection and reconnection never
touch the flag. -/
theorem abandoned_flag_sources (m : RoomMember) (now : ℤ) (sid : ℕ) :
    ((markAbandonedMember now m).abandoned = true ↔
      (m.abandoned = true ∨
        (m.socketId = none ∧ ∃ d, m.disconnectedAt = some d ∧
          RECONNECT_GRACE_MS < now - d))) ∧
    (leaveMatchMember m now).abandoned = true ∧
    (disconnectMember m now).abandoned = m.abandoned ∧
    (reconnectMember m sid).abandoned = m.abandoned := by
  refine ⟨?_, rfl, rfl, rfl⟩
  unfold markAbandonedMember
  cases hs : m.socketId with
  | some v => simp [hs]
  | none =>
    cases hd : m.disconnectedAt with
    | none => simp [hd]
    | some d =>
      by_cases hg : RECONNECT_GRACE_MS < now - d
      · simp [hd, hg]
      · simp [hd, hg]

theorem abandoned_flag_sources_witness :
    ((markAbandonedMember 1000 wMemberT0).abandoned = true ↔
      (wMemberT0.abandoned = true ∨
        (wMemberT0.socketId = none ∧ ∃ d, wMemberT0.disconnectedAt = some d ∧
          RECONNECT_GRACE_MS < 1000 - d))) ∧
    (leaveMatchMember wMemberT0 1000).abandoned = true ∧
    (disconnectMember wMemberT0 1000).abandoned = wMemberT0.abandoned ∧
    (reconnectMember wMemberT0 77).abandoned = wMemberT0.abandoned :=
  abandoned_flag_sources wMemberT0 1000 77

/-- C6 — `tryReconnectToRoom` rejects every attempt unless a live room with
the presented id exists, the member of the connecting player in that room holds
exactly the presented token, and the disconnect duration of that member (if
disconnected) is within the grace window; in particular an attempt whose
disconnect duration has exceeded the grace window is rejected even with the
correct token, and a token is only ever good for the own member of the player in
the room it was issued for. -/
theorem tryReconnect_guards (rooms : List (ℕ × Room)) (pid rid tok sid : ℕ) (now : ℤ) :
    (∀ rooms2, tryReconnectToRoom rooms pid (some (rid, tok)) sid now = some rooms2 →
      ∃ room, assocGet rooms rid = some room ∧
        ∃ m, findMember room pid = some m ∧ m.reconnectToken = tok ∧
          (∀ d, m.disconnectedAt = some d → now - d ≤ RECONNECT_GRACE_MS)) ∧
    (∀ room m d, assocGet rooms rid = some room → findMember room pid = some m →
      m.disconnectedAt = some d → RECONNECT_GRACE_MS < now - d →
      tryReconnectToRoom rooms pid (some (rid, tok)) sid now = none) ∧
    (∀ room m, assocGet rooms rid = some room → findMember room pid = some m →
      m.reconnectToken ≠ tok →
      tryReconnectToRoom rooms pid (some (rid, tok)) sid now = none) := by
  refine ⟨?_, ?_, ?_⟩
  · intro rooms2 h
    unfold tryReconnectToRoom at h
    dsimp only at h
    cases hr : assocGet rooms rid with
    | none => rw [hr] at h; cases h
    | some room =>
      rw [hr] at h
      dsimp only at h
      cases hm : findMember room pid with
      | none => rw [hm] at h; cases h
      | some m =>
        rw [hm] at h
        dsimp only at h
        split at h
        · cases h
        · next htok =>
          refine ⟨room, rfl, m, hm, by simpa using htok, ?_⟩
          intro d hd
          rw [hd] at h
          dsimp only at h
          split at h
          · cases h
          · next hgrace => exact le_of_not_lt hgrace
  · intro room m d hr hm hd hgrace
    unfold tryReconnectToRoom
    dsimp only
    rw [hr]
    dsimp only
    rw [hm]
    dsimp only
    split
    · rfl
    · rw [hd]
      dsimp only
      rw [if_pos hgrace]
  · intro room m hr hm htok
    unfold tryReconnectToRoom
    dsimp only
    rw [hr]
    dsimp only
    rw [hm]
    dsimp only
    rw [if_pos htok]

/-- A concrete room whose only member left 46 seconds ago (beyond the 45s
grace window). -/
def wRoomExpired : Room :=
  { id := 5, playlist := "duel", region := "na", seed := "s", startedAt := 0,
    members := [{ wMemberT0 with socketId := none, disconnectedAt := some 0 }],
    score0 := 0, score1 := 0, ended := false }

theorem tryReconnect_guards_witness :
    (RECONNECT_GRACE_MS < (46000 : ℤ) - 0) ∧
    tryReconnectToRoom [(5, wRoomExpired)] 201 (some (5, 501)) 99 46000 = none :=
  ⟨by decide,
    (tryReconnect_guards [(5, wRoomExpired)] 201 5 501 99 46000).2.1
      wRoomExpired { wMemberT0 with socketId := none, disconnectedAt := some 0 } 0
      rfl rfl rfl (by decide)⟩

/-- C10 — the abandoned flag is never cleared: every member-mutating
operation preserves a set flag; a member who leaves and then reconnects is
re-attached (socket restored, disconnect timestamp cleared, reconnect counter
incremented) yet still flagged abandoned; and `buildRatingChanges` copies
the abandoned flag of each member (driving the rating penalty and the persisted
abandons counter) unchanged into its output. -/
theorem abandoned_flag_permanent (m : RoomMember) (now : ℤ) (sid : ℕ)
    (participants : List RoomMember) (winnerTeam : Option ℕ) :
    (m.abandoned = true →
      (reconnectMember m sid).abandoned = true ∧
      (disconnectMember m now).abandoned = true ∧
      (markAbandonedMember now m).abandoned = true ∧
      (leaveMatchMember m now).abandoned = true) ∧
    ((reconnectMember (leaveMatchMember m now) sid).abandoned = true ∧
     (reconnectMember (leaveMatchMember m now) sid).socketId = some sid ∧
     (reconnectMember (leaveMatchMember m now) sid).disconnectedAt = none ∧
     (reconnectMember (leaveMatchMember m now) sid).reconnectCount = m.reconnectCount + 1) ∧
    ((buildRatingChanges participants winnerTeam).map (fun c => (c.playerId, c.abandoned)) =
      participants.map (fun mm => (mm.playerId, mm.abandoned))) := by
  refine ⟨?_, ⟨rfl, rfl, rfl, rfl⟩, ?_⟩
  · intro hab
    refine ⟨hab, hab, ?_, rfl⟩
    unfold markAbandonedMember
    split
    · split <;> simp [hab]
    · exact hab
  · unfold buildRatingChanges
    rw [List.map_map]
    refine List.map_congr_left ?_
    intro a _
    rfl

/-- A member already flagged abandoned, used to witness C10. -/
def wMemberAb : RoomMember :=
  { wMemberT0 with abandoned := true }

theorem abandoned_flag_permanent_witness :
    (wMemberAb.abandoned = true) ∧
    (reconnectMember wMemberAb 77).abandoned = true ∧
    (reconnectMember (leaveMatchMember wMemberAb 1000) 77).abandoned = true ∧
    (reconnectMember (leaveMatchMember wMemberAb 1000) 77).disconnectedAt = none ∧
    ((buildRatingChanges [wMemberAb] (some 0)).map (fun c => (c.playerId, c.abandoned)) =
      [(wMemberAb.playerId, wMemberAb.abandoned)]) :=
  ⟨rfl,
   ((abandoned_flag_permanent wMemberAb 1000 77 [wMemberAb] (some 0)).1 rfl).1,
   (abandoned_flag_permanent wMemberAb 1000 77 [wMemberAb] (some 0)).2.1.1,
   (abandoned_flag_permanent wMemberAb 1000 77 [wMemberAb] (some 0)).2.1.2.2.1,
   (abandoned_flag_permanent wMemberAb 1000 77 [wMemberAb] (some 0)).2.2⟩

/-- C8 failing input — on a decisive 2-member match between two equally rated
(1000 vs 1000), never-abandoned players, the rating pipeline of the code yields
NaN for every delta and every post-match rating: `ratingAverage` reads the
`rating` field, which room members do not carry (they carry `ratingBefore`),
so the team averages, the Elo expectation and every delta are NaN — not the
positive/negated/zero integers the claim requires. -/
theorem buildRatingChanges_nan :
    (buildRatingChanges [wMemberT0, wMemberT1] (some 0)).map RatingChange.delta =
      [JSNum.nan, JSNum.nan] ∧
    (buildRatingChanges [wMemberT0, wMemberT1] (some 0)).map RatingChange.ratingAfter =
      [JSNum.nan, JSNum.nan] ∧
    (buildRatingChanges [wMemberT0, wMemberT1] none).map RatingChange.delta =
      [JSNum.nan, JSNum.nan] := by
  refine ⟨?_, ?_, ?_⟩ <;> rfl

/-- Modelled from the spec: §4.6 RatingService — the Elo-style per-team delta
the code intends, computed from the per-team weighted-average PRE-MATCH
ratings (the `ratingBefore` the members actually carry), a 10^(gap/400)
expectation, K = 26 and a half-up rounding. -/
noncomputable def ratingDeltaFromAverages (avg0 avg1 : ℚ) (winnerTeam : Option ℕ) : ℤ :=
  let expected0 : ℝ := 1 / (1 + (10 : ℝ) ^ (((avg1 - avg0) / 400 : ℚ) : ℝ))
  let result0 : ℝ := match winnerTeam with | none => 1 / 2 | some 0 => 1 | some _ => 0
  ⌊((ELO_K : ℚ) : ℝ) * (result0 - expected0) + 1 / 2⌋

/-- The spec-intended rating behaviour on equal team averages: a decisive win
gives the winning team +13 and the losing team the exact negation -13, and a
draw gives zero — the property C8 states, which the shipped
`buildRatingChanges` misses only because it reads the wrong field. -/
theorem ratingDelta_equal_averages (avg : ℚ) :
    ratingDeltaFromAverages avg avg (some 0) = 13 ∧
    ratingDeltaFromAverages avg avg (some 1) = -(13) ∧
    ratingDeltaFromAverages avg avg none = 0 := by
  have hz : (((avg - avg) / 400 : ℚ) : ℝ) = 0 := by
    push_cast
    ring
  unfold ratingDeltaFromAverages
  rw [hz, Real.rpow_zero]
  dsimp only
  refine ⟨?_, ?_, ?_⟩
  · rw [Int.floor_eq_iff]
    constructor <;> norm_num [ELO_K]
  · rw [Int.floor_eq_iff]
    constructor <;> norm_num [ELO_K]
  · rw [Int.floor_eq_iff]
    constructor <;> norm_num [ELO_K]

/-! ### Ready-check lifecycle -/

theorem assocGet_none_of_not_mem {κ α : Type} [DecidableEq κ] :
    ∀ (l : List (κ × α)) (k : κ), k ∉ l.map Prod.fst → assocGet l k = none := by
  intro l
  induction l with
  | nil => intro k _; rfl
  | cons p tl ih =>
    intro k hk
    simp only [List.map_cons, List.mem_cons] at hk
    push_neg at hk
    unfold assocGet
    rw [if_neg (by exact fun h => hk.1 h.symm)]
    exact ih k hk.2

theorem assocGet_delete_self {κ α : Type} [DecidableEq κ] :
    ∀ (l : List (κ × α)) (k : κ), (l.map Prod.fst).Nodup →
      assocGet (assocDelete l k) k = none := by
  intro l
  induction l with
  | nil => intro k _; rfl
  | cons p tl ih =>
    intro k hnd
    simp only [List.map_cons, List.nodup_cons] at hnd
    unfold assocDelete
    by_cases hp : p.1 = k
    · rw [if_pos hp]
      exact assocGet_none_of_not_mem tl k (by rw [← hp]; exact hnd.1)
    · rw [if_neg hp]
      unfold assocGet
      rw [if_neg hp]
      exact ih k hnd.2

theorem cancelStep_pending (r : ReadyCheck) (ao : Bool) (ex : Option ℕ) (now : ℤ)
    (st : MMState) (m : ReadyMember) :
    (cancelStep r ao ex now st m).pending = st.pending := by
  unfold cancelStep
  repeat' split
  all_goals rfl

theorem cancelFold_pending (r : ReadyCheck) (ao : Bool) (ex : Option ℕ) (now : ℤ) :
    ∀ (members : List ReadyMember) (st : MMState),
      (members.foldl (cancelStep r ao ex now) st).pending = st.pending := by
  intro members
  induction members with
  | nil => intro st; rfl
  | cons m tl ih =>
    intro st
    rw [List.foldl_cons, ih, cancelStep_pending]

/-- A member of the witness ready-check. -/
def wReadyMember : ReadyMember :=
  { socketId := 7, playerId := 70, nickname := "r", partySize := 1, ratingBefore := 1000,
    team := 0, slots := [0], reconnectToken := 601, inputMode := "mixed" }

/-- A pending single-member ready-check created at time 0, so advertised to
expire at 10000. -/
def wReady : ReadyCheck :=
  { id := 1, playlist := "duel", region := "na", seed := "sd",
    members := [wReadyMember], accepted := [], createdAt := 0, expiresAt := 10000 }

/-- The socket state of the witness member, associated to the check. -/
def wSock : SocketStateE :=
  { socketId := 7, playerId := 70, nickname := "r", rating := some 1000, partySize := 1,
    playlist := "duel", region := "na", inputMode := "mixed",
    pendingReadyId := some 1, roomId := none, slots := [], pingMs := some 80 }

/-- A matchmaking state in which `wReady` is still pending. -/
def wMM : MMState :=
  { pending := [(1, wReady)], socketStates := [(7, wSock)], playerSocket := [(70, 7)],
    queue := { buckets := [], entryBySocket := [], nextEntryId := 0 },
    requeueLog := [], cancelNoticeLog := [], confirmLog := [] }

/-- C9 counterexample — `acceptReady` never compares the current time with
the `expiresAt` of the check (its cancellation timer is armed for 80ms after the
advertised expiry), so an acceptance processed at time 10050, strictly after
the expiry 10000, still transitions the pending check — here all the way to
confirmed (handed to `createRoomFromReady`). -/
theorem readyCheck_confirms_after_expiry :
    wReady.expiresAt < 10050 ∧
    (acceptReady wMM 7 none true 10050).confirmLog = [{ wReady with accepted := [70] }] ∧
    assocGet (acceptReady wMM 7 none true 10050).pending 1 = none := by
  refine ⟨by decide, ?_, ?_⟩ <;> rfl

/-- C9 amended — a ready-check that has reached a terminal state (left the
pending map) is never mutated again: late cancels and timeout firings are
no-ops, and a late acceptance only clears the stale association of the socket,
leaving the pending map, the confirmations and the re-queue log untouched.
A still-pending check may transition after `expiresAt`, until its
cancellation timer — armed for exactly 80ms after the advertised expiry —
fires, which cancels it (removes it from the pending map). -/
theorem readyCheck_terminal_immutable (st : MMState) (rid : ℕ) (reason : String)
    (ao : Bool) (ex : Option ℕ) (now now2 : ℤ) (sid : ℕ) (pm : Option ℕ) (acc : Bool) :
    (assocGet st.pending rid = none →
      cancelReadyCheck st rid reason ao ex now = st ∧
      readyTimeoutFire st rid now = st) ∧
    (∀ state pendingId, assocGet st.socketStates sid = some state →
      state.pendingReadyId = some pendingId → pm.getD pendingId = rid →
      assocGet st.pending rid = none →
      (acceptReady st sid pm acc now).pending = st.pending ∧
      (acceptReady st sid pm acc now).confirmLog = st.confirmLog ∧
      (acceptReady st sid pm acc now).requeueLog = st.requeueLog) ∧
    ((st.pending.map Prod.fst).Nodup →
      assocGet (readyTimeoutFire st rid now2).pending rid = none) ∧
    (∀ r : ReadyCheck, r.expiresAt = r.createdAt + READY_CHECK_MS →
      readyTimerFiresAt r.createdAt = r.expiresAt + 80) := by
  refine ⟨?_, ?_, ?_, ?_⟩
  · intro h
    constructor
    · unfold cancelReadyCheck
      rw [h]
    · unfold readyTimeoutFire
      rw [h]
  · intro state pendingId hstate hpid hrid h
    unfold acceptReady
    rw [hstate]
    dsimp only
    rw [hpid]
    dsimp only
    rw [hrid, h]
    exact ⟨rfl, rfl, rfl⟩
  · intro hnd
    unfold readyTimeoutFire
    cases hr : assocGet st.pending rid with
    | none => exact hr
    | some r =>
      dsimp only
      unfold cancelReadyCheck
      rw [hr]
      dsimp only
      rw [cancelFold_pending]
      exact assocGet_delete_self st.pending rid hnd
  · intro r h
    unfold readyTimerFiresAt
    omega

/-- The witness state with no pending checks. -/
def wMMEmpty : MMState :=
  { wMM with pending := [] }

theorem readyCheck_terminal_immutable_witness :
    (cancelReadyCheck wMMEmpty 1 "x" true none 0 = wMMEmpty) ∧
    (assocGet (readyTimeoutFire wMM 1 10080).pending 1 = none) ∧
    (readyTimerFiresAt wReady.createdAt = wReady.expiresAt + 80) :=
  ⟨((readyCheck_terminal_immutable wMMEmpty 1 "x" true none 0 0 0 none true).1 rfl).1,
   (readyCheck_terminal_immutable wMM 1 "r" true none 0 10080 0 none true).2.2.1 (by decide),
   (readyCheck_terminal_immutable wMM 1 "r" true none 0 0 0 none true).2.2.2 wReady rfl⟩

/-! ### Re-enqueue behaviour of ready-check cancellation -/

/-- The entry created by `enqueueFromSocketState` carries a join time offset
into the past by the priority, and the normalized playlist and region of the
request (index.js:487-498). -/
theorem enqueue_entry_joinedAt (qs : QueueState) (state : SocketStateE)
    (payload : JoinPayload) (pm now : ℤ) :
    (enqueueFromSocketState qs state payload pm now).2.2.joinedAt = now - max 0 pm := by
  unfold enqueueFromSocketState
  dsimp only

theorem enqueue_entry_playlist (qs : QueueState) (state : SocketStateE)
    (payload : JoinPayload) (pm now : ℤ) :
    (enqueueFromSocketState qs state payload pm now).2.2.playlist =
      normalizePlaylist payload.playlist := by
  unfold enqueueFromSocketState
  dsimp only

theorem enqueue_entry_region (qs : QueueState) (state : SocketStateE)
    (payload : JoinPayload) (pm now : ℤ) :
    (enqueueFromSocketState qs state payload pm now).2.2.region =
      normalizeRegion payload.region := by
  unfold enqueueFromSocketState
  dsimp only


theorem assocGet_set_ne {κ α : Type} [DecidableEq κ] :
    ∀ (l : List (κ × α)) (k k' : κ) (v : α), k' ≠ k →
      assocGet (assocSet l k v) k' = assocGet l k' := by
  intro l
  induction l with
  | nil =>
    intro k k' v hne
    unfold assocSet assocGet
    rw [if_neg (fun h : k = k' => hne h.symm)]
    rfl
  | cons p tl ih =>
    intro k k' v hne
    unfold assocSet
    by_cases hp : p.1 = k
    · rw [if_pos hp]
      unfold assocGet
      rw [if_neg (fun h : k = k' => hne h.symm),
        if_neg (fun h : p.1 = k' => hne (h.symm.trans hp))]
    · rw [if_neg hp]
      unfold assocGet
      by_cases hk' : p.1 = k'
      · rw [if_pos hk', if_pos hk']
      · rw [if_neg hk', if_neg hk']
        exact ih k k' v hne

theorem cancelStep_playerSocket (r : ReadyCheck) (ao : Bool) (ex : Option ℕ) (now : ℤ)
    (st : MMState) (m : ReadyMember) :
    (cancelStep r ao ex now st m).playerSocket = st.playerSocket := by
  unfold cancelStep
  repeat' split
  all_goals rfl

theorem cancelStep_socketStates_other (r : ReadyCheck) (ao : Bool) (ex : Option ℕ)
    (now : ℤ) (st : MMState) (m : ReadyMember) (sid : ℕ)
    (hne : assocGet st.playerSocket m.playerId ≠ some sid) :
    assocGet (cancelStep r ao ex now st m).socketStates sid =
      assocGet st.socketStates sid := by
  unfold cancelStep
  split
  · rfl
  · split
    · rfl
    · cases hps : assocGet st.playerSocket m.playerId with
      | none => rfl
      | some csid =>
        dsimp only
        cases hss : assocGet st.socketStates csid with
        | none => rfl
        | some state =>
          dsimp only
          split
          · rfl
          · dsimp only
            have hcs : sid ≠ csid := by
              intro h
              exact hne (by rw [hps, h])
            exact assocGet_set_ne st.socketStates csid sid _ hcs

theorem cancelStep_log_mono (r : ReadyCheck) (ao : Bool) (ex : Option ℕ) (now : ℤ)
    (st : MMState) (m : ReadyMember) (pe : ℕ × QEntry)
    (h : pe ∈ st.requeueLog) :
    pe ∈ (cancelStep r ao ex now st m).requeueLog := by
  unfold cancelStep
  split
  · exact h
  · split
    · exact h
    · cases assocGet st.playerSocket m.playerId with
      | none => exact h
      | some csid =>
        dsimp only
        cases assocGet st.socketStates csid with
        | none => exact h
        | some state =>
          dsimp only
          split
          · exact h
          · exact List.mem_append_left _ h

theorem cancelStep_log_superset (r : ReadyCheck) (ex : Option ℕ) (now : ℤ)
    (st : MMState) (m : ReadyMember) (pe : ℕ × QEntry)
    (hmem : pe ∈ (cancelStep r true ex now st m).requeueLog) :
    pe ∈ st.requeueLog ∨ (some pe.1 ≠ ex ∧ pe.1 ∈ r.accepted) := by
  unfold cancelStep at hmem
  split at hmem
  · exact Or.inl hmem
  · next hex =>
    split at hmem
    · exact Or.inl hmem
    · next hacc =>
      cases hps : assocGet st.playerSocket m.playerId with
      | none => rw [hps] at hmem; exact Or.inl hmem
      | some csid =>
        rw [hps] at hmem
        dsimp only at hmem
        cases hss : assocGet st.socketStates csid with
        | none => rw [hss] at hmem; exact Or.inl hmem
        | some state =>
          rw [hss] at hmem
          dsimp only at hmem
          split at hmem
          · exact Or.inl hmem
          · rcases List.mem_append.mp hmem with h | h
            · exact Or.inl h
            · right
              have hp1 : pe.1 = m.playerId := by
                rw [List.mem_singleton.mp h]
              rw [hp1]
              refine ⟨hex, ?_⟩
              by_contra hnot
              exact hacc ⟨rfl, hnot⟩

theorem cancelStep_hit (r : ReadyCheck) (ex : Option ℕ) (now : ℤ) (st : MMState)
    (m : ReadyMember) (sid : ℕ) (state : SocketStateE)
    (hex : ¬(some m.playerId = ex)) (hacc : m.playerId ∈ r.accepted)
    (hsock : assocGet st.playerSocket m.playerId = some sid)
    (hstate : assocGet st.socketStates sid = some state)
    (hroom : state.roomId = none) :
    ∃ e, (cancelStep r true ex now st m).requeueLog = st.requeueLog ++ [(m.playerId, e)] ∧
      e.joinedAt = now - QUEUE_REQUEUE_PRIORITY_MS ∧
      e.playlist = normalizePlaylist (some r.playlist) ∧
      e.region = normalizeRegion (some r.region) := by
  unfold cancelStep
  rw [if_neg hex, if_neg (by
    intro h
    exact h.2 hacc), hsock]
  dsimp only
  rw [hstate]
  dsimp only
  rw [if_neg (by simp [hroom])]
  refine ⟨_, rfl, ?_, ?_, ?_⟩
  · rw [enqueue_entry_joinedAt]
    norm_num [QUEUE_REQUEUE_PRIORITY_MS]
  · rw [enqueue_entry_playlist]
  · rw [enqueue_entry_region]

theorem cancelFold_playerSocket (r : ReadyCheck) (ao : Bool) (ex : Option ℕ) (now : ℤ) :
    ∀ (l : List ReadyMember) (st : MMState),
      (l.foldl (cancelStep r ao ex now) st).playerSocket = st.playerSocket := by
  intro l
  induction l with
  | nil => intro st; rfl
  | cons m tl ih =>
    intro st
    rw [List.foldl_cons, ih, cancelStep_playerSocket]

theorem cancelFold_log_mono (r : ReadyCheck) (ao : Bool) (ex : Option ℕ) (now : ℤ) :
    ∀ (l : List ReadyMember) (st : MMState) (pe : ℕ × QEntry),
      pe ∈ st.requeueLog → pe ∈ (l.foldl (cancelStep r ao ex now) st).requeueLog := by
  intro l
  induction l with
  | nil => intro st pe h; exact h
  | cons m tl ih =>
    intro st pe h
    rw [List.foldl_cons]
    exact ih _ pe (cancelStep_log_mono r ao ex now st m pe h)

theorem cancelFold_log_superset (r : ReadyCheck) (ex : Option ℕ) (now : ℤ) :
    ∀ (l : List ReadyMember) (st : MMState) (pe : ℕ × QEntry),
      pe ∈ (l.foldl (cancelStep r true ex now) st).requeueLog →
      pe ∈ st.requeueLog ∨ (some pe.1 ≠ ex ∧ pe.1 ∈ r.accepted) := by
  intro l
  induction l with
  | nil => intro st pe h; exact Or.inl h
  | cons m tl ih =>
    intro st pe h
    rw [List.foldl_cons] at h
    rcases ih _ pe h with h2 | h2
    · exact cancelStep_log_superset r ex now st m pe h2
    · exact Or.inr h2

theorem cancelFold_socketStates_other (r : ReadyCheck) (ao : Bool) (ex : Option ℕ)
    (now : ℤ) (sid : ℕ) :
    ∀ (l : List ReadyMember) (st : MMState),
      (∀ m2 ∈ l, assocGet st.playerSocket m2.playerId ≠ some sid) →
      assocGet (l.foldl (cancelStep r ao ex now) st).socketStates sid =
        assocGet st.socketStates sid := by
  intro l
  induction l with
  | nil => intro st _; rfl
  | cons m tl ih =>
    intro st hall
    rw [List.foldl_cons]
    have hps : (cancelStep r ao ex now st m).playerSocket = st.playerSocket :=
      cancelStep_playerSocket r ao ex now st m
    have h1 := ih (cancelStep r ao ex now st m) (by
      intro m2 hm2
      rw [hps]
      exact hall m2 (List.mem_cons_of_mem m hm2))
    rw [h1]
    exact cancelStep_socketStates_other r ao ex now st m sid
      (hall m (List.mem_cons_self m tl))

/-- Existence of the re-enqueue of an accepting member through the
cancellation fold, for an arbitrary state the fold starts from. -/
theorem cancelFold_exists_hit (ready : ReadyCheck) (ex : Option ℕ) (now : ℤ)
    (sid : ℕ) (state : SocketStateE) (l1 l2 : List ReadyMember) (member : ReadyMember)
    (hex : some member.playerId ≠ ex) (hacc : member.playerId ∈ ready.accepted)
    (st1 : MMState)
    (hsock1 : assocGet st1.playerSocket member.playerId = some sid)
    (hall : ∀ m2 ∈ l1, assocGet st1.playerSocket m2.playerId ≠ some sid)
    (hstate1 : assocGet st1.socketStates sid = some state)
    (hroom1 : state.roomId = none) :
    ∃ e, (member.playerId, e) ∈
        ((l1 ++ member :: l2).foldl (cancelStep ready true ex now) st1).requeueLog ∧
      e.joinedAt = now - QUEUE_REQUEUE_PRIORITY_MS ∧
      e.playlist = normalizePlaylist (some ready.playlist) ∧
      e.region = normalizeRegion (some ready.region) := by
  rw [List.foldl_append, List.foldl_cons]
  have hpsA := cancelFold_playerSocket ready true ex now l1 st1
  have hssA := cancelFold_socketStates_other ready true ex now sid l1 st1 hall
  obtain ⟨e, hlog, hjoin, hpl, hreg⟩ :=
    cancelStep_hit ready ex now (l1.foldl (cancelStep ready true ex now) st1)
      member sid state hex hacc (by rw [hpsA]; exact hsock1) (by rw [hssA]; exact hstate1)
      hroom1
  refine ⟨e, ?_, hjoin, hpl, hreg⟩
  apply cancelFold_log_mono
  rw [hlog]
  exact List.mem_append_right _ (List.mem_singleton_self _)

/-- C7 — when a pending ready-check is cancelled (rejection, timeout or a
disconnection of a member), every member who had already accepted and is not the
cause of the cancellation — and who, as in every reachable cancellation, has
a live socket with no active room — is re-enqueued into a bucket keyed by the
own playlist and region of the check, with a join timestamp offset 12 seconds into
the past, strictly earlier than the timestamp any brand-new queue request
made at the same instant receives; and every entry the cancellation adds to
the queue belongs to an accepting, non-excluded member, so a member who
rejected (passed as the excluded player) is never re-enqueued. -/
theorem cancelReadyCheck_requeues_accepted (st : MMState) (rid : ℕ) (reason : String)
    (ex : Option ℕ) (now : ℤ) (ready : ReadyCheck) (member : ReadyMember)
    (sid : ℕ) (state : SocketStateE)
    (hready : assocGet st.pending rid = some ready)
    (hnd : (ready.members.map ReadyMember.playerId).Nodup)
    (hm : member ∈ ready.members)
    (hacc : member.playerId ∈ ready.accepted)
    (hex : some member.playerId ≠ ex)
    (hsock : assocGet st.playerSocket member.playerId = some sid)
    (hsid : ∀ m2 ∈ ready.members, m2.playerId ≠ member.playerId →
      assocGet st.playerSocket m2.playerId ≠ some sid)
    (hstate : assocGet (clearPendingAssoc ready st.socketStates) sid = some state)
    (hroom : state.roomId = none) :
    (∃ e, (member.playerId, e) ∈ (cancelReadyCheck st rid reason true ex now).requeueLog ∧
      e.joinedAt = now - QUEUE_REQUEUE_PRIORITY_MS ∧
      e.playlist = normalizePlaylist (some ready.playlist) ∧
      e.region = normalizeRegion (some ready.region) ∧
      e.joinedAt < now ∧
      (∀ (qs2 : QueueState) (stt2 : SocketStateE) (pay2 : JoinPayload),
        e.joinedAt < (enqueueFromSocketState qs2 stt2 pay2 0 now).2.2.joinedAt)) ∧
    (∀ p e2, (p, e2) ∈ (cancelReadyCheck st rid reason true ex now).requeueLog →
      (p, e2) ∉ st.requeueLog → some p ≠ ex ∧ p ∈ ready.accepted) := by
  obtain ⟨l1, l2, hsplit⟩ := List.append_of_mem hm
  have hl1 : ∀ m2 ∈ l1, m2.playerId ≠ member.playerId := by
    intro m2 hm2
    rw [hsplit, List.map_append, List.map_cons] at hnd
    rcases List.nodup_append.mp hnd with ⟨-, -, hdisj⟩
    intro heq
    exact hdisj (heq ▸ List.mem_map_of_mem ReadyMember.playerId hm2)
      (List.mem_cons_self _ _)
  have hc : cancelReadyCheck st rid reason true ex now =
      ready.members.foldl (cancelStep ready true ex now)
        { st with pending := assocDelete st.pending rid,
                  socketStates := clearPendingAssoc ready st.socketStates,
                  cancelNoticeLog := st.cancelNoticeLog ++
                    ready.members.map (fun m2 => (m2.socketId, ready.id, reason)) } := by
    unfold cancelReadyCheck
    rw [hready]
  constructor
  · obtain ⟨e, hmem, hjoin, hpl, hreg⟩ :=
      cancelFold_exists_hit ready ex now sid state l1 l2 member hex hacc
        { st with pending := assocDelete st.pending rid,
                  socketStates := clearPendingAssoc ready st.socketStates,
                  cancelNoticeLog := st.cancelNoticeLog ++
                    (l1 ++ member :: l2).map (fun m2 => (m2.socketId, ready.id, reason)) }
        hsock
        (by
          intro m2 hm2
          exact hsid m2 (by rw [hsplit]; exact List.mem_append_left _ hm2) (hl1 m2 hm2))
        hstate hroom
    refine ⟨e, ?_, hjoin, hpl, hreg, ?_, ?_⟩
    · rw [hc, hsplit]
      exact hmem
    · rw [hjoin]
      norm_num [QUEUE_REQUEUE_PRIORITY_MS]
    · intro qs2 stt2 pay2
      rw [hjoin, enqueue_entry_joinedAt]
      have hmax : max (0 : ℤ) 0 = 0 := by norm_num
      rw [hmax]
      norm_num [QUEUE_REQUEUE_PRIORITY_MS]
  · intro p e2 hmem2 hnot
    rw [hc] at hmem2
    rcases cancelFold_log_superset ready ex now ready.members _ (p, e2) hmem2 with h | h
    · exact absurd h hnot
    · exact h

/-- Second member of the witness ready-check (the one who rejects). -/
def wReadyMemberB : ReadyMember :=
  { socketId := 8, playerId := 71, nickname := "s", partySize := 1, ratingBefore := 1000,
    team := 1, slots := [2], reconnectToken := 602, inputMode := "mixed" }

/-- A two-member pending ready-check in which player 70 has accepted. -/
def wReady2 : ReadyCheck :=
  { id := 2, playlist := "duel", region := "na", seed := "sd",
    members := [wReadyMember, wReadyMemberB], accepted := [70],
    createdAt := 0, expiresAt := 10000 }

/-- Socket state of the accepting member, associated to check 2. -/
def wSockA2 : SocketStateE :=
  { wSock with pendingReadyId := some 2 }

/-- Socket state of the rejecting member. -/
def wSockB : SocketStateE :=
  { socketId := 8, playerId := 71, nickname := "s", rating := some 1000, partySize := 1,
    playlist := "duel", region := "na", inputMode := "mixed",
    pendingReadyId := some 2, roomId := none, slots := [], pingMs := some 80 }

/-- Matchmaking state holding the two-member pending check. -/
def wMM2 : MMState :=
  { pending := [(2, wReady2)], socketStates := [(7, wSockA2), (8, wSockB)],
    playerSocket := [(70, 7), (71, 8)],
    queue := { buckets := [], entryBySocket := [], nextEntryId := 0 },
    requeueLog := [], cancelNoticeLog := [], confirmLog := [] }

theorem cancelReadyCheck_requeues_accepted_witness :
    ∃ e, (70, e) ∈ (cancelReadyCheck wMM2 2 "rechazo" true (some 71) 20000).requeueLog ∧
      e.joinedAt = 20000 - QUEUE_REQUEUE_PRIORITY_MS ∧
      e.joinedAt < 20000 :=
  match (cancelReadyCheck_requeues_accepted wMM2 2 "rechazo" (some 71) 20000 wReady2
      wReadyMember 7 { wSockA2 with pendingReadyId := none }
      rfl (by decide) (by decide) (by decide) (by decide) rfl (by decide) rfl rfl).1 with
  | ⟨e, hmem, hjoin, _, _, hlt, _⟩ => ⟨e, hmem, hjoin, hlt⟩

end PongServer
